/-
  Verification of the olmonopolet-api sync pipeline.

  Shallow embedding of the relevant parts of the repository:
    - api/beers/models.py                  (Beer.value_score, Beer.save, WrongMatch.save)
    - api/beers/management/commands/deactivate_inactive.py
    - api/beers/management/commands/match_untappd.py
    - api/beers/management/commands/update_stock_from_vmp.py
    - api/beers/api/utils.py               (checkin parsing, dedup, import, resync)
    - api/beers/api/views.py               (bulk_mark_tasted)

  Conventions of the embedding:
    - Python floats are modelled as rationals and ints as integers;
      datetimes become abstract instants (integers for the catalog and
      stock stamps, rationals for checkin times) of which only the
      order is ever used.
    - Database tables are lists of records, in insertion order; bulk
      UPDATE statements become maps over those lists.
    - External effects (HTTP search, redirect resolution, strptime and
      the similarity scorer of the fuzzywuzzy library) are parameters of
      the functions that use them.
-/
import Mathlib

namespace Olmonopolet

/-! ## String helpers

Python string operations, implemented over the character list of a
`String` by structural recursion so that every definition evaluates in
the kernel. -/

/-- Digits of a decimal literal to a natural number; `none` when the list
is empty or holds a non-digit (the failure case of Python int()/float()). -/
def digitsToNat (l : List Char) : Option ℕ :=
  if l ≠ [] ∧ l.all Char.isDigit then
    some (l.foldl (fun n c => 10 * n + (c.toNat - 48)) 0)
  else none

/-- Characters of a Python strip(): whitespace removed from both ends. -/
def stripChars (l : List Char) : List Char :=
  ((l.dropWhile Char.isWhitespace).reverse.dropWhile Char.isWhitespace).reverse

/-- Python str.strip(). -/
def pyStrip (s : String) : String := String.mk (stripChars s.data)

/-- Python int(s) on a string: optional sign, then decimal digits,
surrounding whitespace ignored; `none` models the ValueError path. -/
def strToInt (s : String) : Option ℤ :=
  match stripChars s.data with
  | [] => none
  | c :: rest =>
    if c = '-' then (digitsToNat rest).map (fun n => -(n : ℤ))
    else if c = '+' then (digitsToNat rest).map (fun n => (n : ℤ))
    else (digitsToNat (c :: rest)).map (fun n => (n : ℤ))

/-- The value of a digit list, `0` on the empty list (helper for
`strToFloat`, where either side of the point may be empty). -/
def digitsVal (l : List Char) : ℕ :=
  l.foldl (fun n c => 10 * n + (c.toNat - 48)) 0

/-- Split a character list at the first occurrence of a separator char:
`(before, some after)` or `(l, none)` when absent. -/
def splitOnceChar (sep : Char) : List Char → List Char × Option (List Char)
  | [] => ([], none)
  | c :: rest =>
    if c = sep then ([], some rest)
    else
      match splitOnceChar sep rest with
      | (before, after) => (c :: before, after)

/-- Python float(s) on a string: optional sign, digits with at most one
decimal point, at least one digit overall; `none` models ValueError. -/
def strToFloat (s : String) : Option ℚ :=
  let core : List Char → Option ℚ := fun l =>
    match splitOnceChar '.' l with
    | (intPart, none) => (digitsToNat intPart).map (fun n => (n : ℚ))
    | (intPart, some fracPart) =>
      if (intPart ++ fracPart) ≠ [] ∧ (intPart ++ fracPart).all Char.isDigit then
        some ((digitsVal intPart : ℚ) + (digitsVal fracPart : ℚ) / (10 : ℚ) ^ fracPart.length)
      else none
  match stripChars s.data with
  | [] => none
  | c :: rest =>
    if c = '-' then (core rest).map (fun q => -q)
    else if c = '+' then core rest
    else core (c :: rest)

/-- Split a character list at the first occurrence of a separator
substring: `some (before, after)` or `none` when absent (models Python
`s.split(sep, 1)` together with the `sep in s` test). -/
def breakOnSub (sep : List Char) : List Char → Option (List Char × List Char)
  | [] => if sep = [] then some ([], []) else none
  | c :: rest =>
    if sep.isPrefixOf (c :: rest) then some ([], (c :: rest).drop sep.length)
    else (breakOnSub sep rest).map (fun p => (c :: p.1, p.2))

/-- Python `sep in s` as a Boolean. -/
def containsSub (s pat : String) : Bool := (breakOnSub pat.data s.data).isSome

/-- Python `s.split("/")[-1]`: everything after the last slash. -/
def lastSegment (s : String) : String :=
  String.mk (s.data.foldl (fun acc c => if c = '/' then [] else acc ++ [c]) [])

/-- Python `s.rstrip("/")`. -/
def rstripSlash (s : String) : String :=
  String.mk ((s.data.reverse.dropWhile (fun c => c = '/')).reverse)

/-- Python `s.split()`: split on whitespace runs, dropping empty parts. -/
def pyWordsAux : List Char → List Char → List (List Char)
  | [], acc => if acc = [] then [] else [acc.reverse]
  | c :: rest, acc =>
    if c.isWhitespace then
      if acc = [] then pyWordsAux rest [] else acc.reverse :: pyWordsAux rest []
    else pyWordsAux rest (c :: acc)

/-- Python `s.split()` as a list of words. -/
def pyWords (s : String) : List String := (pyWordsAux s.data []).map String.mk

/-- Python `s.lower()` (ASCII, as used on filenames here). -/
def pyLower (s : String) : String := String.mk (s.data.map Char.toLower)

/-- Python `s.endswith(suffixStr)`. -/
def endsWith (s suffixStr : String) : Bool := suffixStr.data.isSuffixOf s.data

/-! ## The Beer model (api/beers/models.py, class Beer)

Only the fields read or written by the code under verification are
carried; every one of them keeps its name from the source.  Nullable
columns become `Option`, `FloatField` becomes `Option ℚ`, and the two
datetime stamps become `Option ℤ` (only their order is used). -/

structure Beer where
  vmp_id : ℤ
  vmp_name : String
  price_per_volume : Option ℚ
  untpd_id : Option ℤ
  untpd_name : Option String
  untpd_url : Option String
  verified_match : Bool
  match_manually : Bool
  prioritize_recheck : Bool
  brewery : Option String
  rating : Option ℚ
  checkins : Option ℤ
  style : Option String
  description : Option String
  abv : Option ℚ
  ibu : Option ℤ
  label_hd_url : Option String
  label_sm_url : Option String
  alcohol_units : Option ℚ
  vmp_updated : Option ℤ
  untpd_updated : Option ℤ
  active : Bool
  deriving Repr, DecidableEq

/-- `Beer.value_score` (models.py): guarded by Python truthiness plus a
strict positivity test on both `rating` and `price_per_volume`; the body
is the float expression `(rating**4.8 / ((ppv/100)**0.32)) * 0.0176`. -/
noncomputable def value_score (b : Beer) : Option ℝ :=
  match b.rating, b.price_per_volume with
  | some r, some p =>
    if r ≠ 0 ∧ 0 < r ∧ p ≠ 0 ∧ 0 < p then
      some ((((r : ℝ) ^ (4.8 : ℝ)) / (((p : ℝ) / 100) ^ (0.32 : ℝ))) * 0.0176)
    else none
  | _, _ => none

/-- `get_dirty_fields()` reports exactly `{"untpd_url"}`: the in-memory
row differs from its database snapshot in `untpd_url` and nowhere else. -/
def onlyDirtyUntpdUrl (snap cur : Beer) : Bool :=
  decide (cur.untpd_url ≠ snap.untpd_url) &&
    decide ({ cur with untpd_url := snap.untpd_url } = snap)

/-- `get_dirty_fields()` reports exactly `{"match_manually"}`. -/
def onlyDirtyMatchManually (snap cur : Beer) : Bool :=
  decide (cur.match_manually ≠ snap.match_manually) &&
    decide ({ cur with match_manually := snap.match_manually } = snap)

/-- The field-clearing block of `Beer.save` that runs when
`match_manually` alone became true. -/
def clearUntappdFields (b : Beer) : Beer :=
  { b with
    untpd_id := none, untpd_name := none, untpd_url := none,
    verified_match := false, prioritize_recheck := false,
    brewery := none, rating := none, checkins := none, style := none,
    description := none, abv := none, ibu := none,
    label_hd_url := none, label_sm_url := none,
    alcohol_units := none, untpd_updated := none }

/-- `Beer.save` (models.py): `snap` is the database snapshot the dirty
field detection compares against, `cur` the in-memory row being saved;
the result is the row as persisted, `none` when the save raises (the
only such path here: the url-derived `untpd_id` does not parse as an
integer, so the integer column rejects it).

Notes kept from the source: the first branch's extra test
`self.untpd_id != self.untpd_url.split("/")[-1]` compares an integer
(or None) with a string and is therefore always true in Python, so it
does not appear; the recursive `self.save()` calls inside the branches
only persist the same final row and are collapsed. -/
def beerSave (snap cur : Beer) : Option Beer :=
  if onlyDirtyUntpdUrl snap cur && cur.untpd_url.isSome then
    match cur.untpd_url with
    | some url =>
      (strToInt (lastSegment url)).map (fun n =>
        { cur with
          untpd_id := some n, prioritize_recheck := true,
          verified_match := true, match_manually := false })
    | none => some cur
  else if onlyDirtyMatchManually snap cur && cur.match_manually then
    some (clearUntappdFields cur)
  else some cur

/-! ## WrongMatch.save (api/beers/models.py, class WrongMatch)

`autoAccept` is the `active` flag of the `auto_accept_wrong_match`
Option row (`none` when the row does not exist), `resolver` the
location header of the `requests.head` redirect lookup (`none` when it
raises).  The
result is the final Beer row together with whether the WrongMatch row
still exists afterwards. -/

structure WrongMatch where
  suggested_url : String
  accept_change : Bool
  deriving Repr, DecidableEq

/-- The shortlink-resolution step of `WrongMatch.save`. -/
def resolvedUrl (resolver : String → Option String) (url : String) : String :=
  if containsSub url "https://untp.beer/" then (resolver url).getD url else url

/-- The `accept_change` value after the auto-accept Option lookup
(`self.accept_change = auto_accept` only when the row exists and is
truthy). -/
def acceptFlag (autoAccept : Option Bool) (wm : WrongMatch) : Bool :=
  match autoAccept with
  | some a => if a then true else wm.accept_change
  | none => wm.accept_change

/-- `WrongMatch.save`: the super-save has already persisted the row; the
returned Bool is whether it still exists when save returns. -/
def wrongMatchSave (autoAccept : Option Bool) (resolver : String → Option String)
    (beer : Beer) (wm : WrongMatch) : Beer × Bool :=
  if acceptFlag autoAccept wm = true ∧
      some (resolvedUrl resolver wm.suggested_url) ≠ beer.untpd_url then
    match strToInt (lastSegment (resolvedUrl resolver wm.suggested_url)) with
    | none => (beer, true)  -- int() raises before beer.save(); nothing deleted
    | some n =>
      match beerSave beer
          { beer with
            untpd_url := some (resolvedUrl resolver wm.suggested_url), untpd_id := some n,
            prioritize_recheck := true, verified_match := true,
            match_manually := false } with
      | some b => (b, false)
      | none => (beer, true)  -- beer.save() raises; nothing deleted
  else if acceptFlag autoAccept wm = true ∧
      some (resolvedUrl resolver wm.suggested_url) = beer.untpd_url then
    (beer, false)
  else (beer, true)

/-! ## Fuzzy matching (management/commands/match_untappd.py)

The HTTP search plus HTML parsing pipeline
(`_query_untappd` composed with `_parse_search_results`) is a parameter
`search : String → Option (List SearchResult)`; `none` is a failed or
empty fetch.  The similarity scorer (`fuzz.ratio` composed with
fuzzywuzzy's default processor) is a parameter
`score : String → String → ℕ` on the library's 0–100 scale. -/

/-- A parsed search result `(beer_name, untappd_id, full_url)`. -/
abbrev SearchResult := String × String × String

/-- `Command._generate_query_variations`. -/
def generateQueryVariations (beer_name : String) : List String :=
  let split := breakOnSub " x ".data beer_name.data
  let collab_removed := match split with
    | some (l, r) => pyStrip (String.mk l) ++ " " ++ pyStrip (String.mk r)
    | none => beer_name
  let variations := match split with
    | some _ => [beer_name, collab_removed]
    | none => [beer_name]
  let words := pyWords collab_removed
  -- range(len(words) - 1, 2, -1)
  let idxs := ((List.range words.length).filter (fun i => 2 < i)).reverse
  variations ++ idxs.map (fun i => String.intercalate " " (words.take i))

/-- `process.extractOne` inner loop: Python `max` keeps the first
element among ties, a strictly greater score replaces. -/
def extractOneAux (score : String → String → ℕ) (query : String) :
    String × ℕ → List String → String × ℕ
  | best, [] => best
  | best, c :: cs =>
    extractOneAux score query (if best.2 < score query c then (c, score query c) else best) cs

/-- `process.extractOne(query, choices, scorer=...)`: `none` on an empty
choice list, otherwise the first best-scoring choice with its score. -/
def extractOne (score : String → String → ℕ) (query : String) :
    List String → Option (String × ℕ)
  | [] => none
  | c :: cs => some (extractOneAux score query (c, score query c) cs)

/-- The per-variant loop of `Command._find_beer_match`. -/
def findFrom (search : String → Option (List SearchResult))
    (score : String → String → ℕ) (beer_name : String) :
    List String → Option (SearchResult × ℕ)
  | [] => none
  | q :: rest =>
    match search q with
    | none => findFrom search score beer_name rest
    | some results =>
      match extractOne score beer_name (results.map (fun r => r.1)) with
      | none => findFrom search score beer_name rest
      | some (matched_name, s) =>
        match results.find? (fun r => r.1 = matched_name) with
        | some r => some (r, s)
        | none => findFrom search score beer_name rest

/-- `Command._find_beer_match`. -/
def findBeerMatch (search : String → Option (List SearchResult))
    (score : String → String → ℕ) (beer_name : String) : Option (SearchResult × ℕ) :=
  findFrom search score beer_name (generateQueryVariations beer_name)

/-- `Command._mark_as_failed`: sets the description marker and the
manual-match flag, then saves (never raises: the url-only branch of
`Beer.save` cannot fire here). -/
def markAsFailed (b : Beer) : Beer :=
  (beerSave b { b with description := some "Missing on Untappd.", match_manually := true }).getD b

/-- `Command._process_beer`: the row as persisted after processing one
beer.  An accepted match requires a result with score above 40 whose id
parses as an integer; every failure path runs `_mark_as_failed`. -/
def processBeer (search : String → Option (List SearchResult))
    (score : String → String → ℕ) (b : Beer) : Beer :=
  match findBeerMatch search score b.vmp_name with
  | some (r, s) =>
    if 40 < s then
      match strToInt r.2.1 with
      | some n =>
        match beerSave b { b with untpd_id := some n, untpd_url := some r.2.2 } with
        | some b => b
        | none => markAsFailed b
      | none => markAsFailed b
    else markAsFailed b
  | none => markAsFailed b

/-! ## Stock rows and the deactivation sweep

`Stock` (models.py) is the Product × Store join row; the sweep is
management/commands/deactivate_inactive.py. -/

structure Stock where
  store : ℤ
  beer : ℤ
  quantity : ℤ
  stocked_at : Option ℤ
  unstocked_at : Option ℤ
  deriving Repr, DecidableEq

/-- The filter of `Command._get_inactive_beers`:
`vmp_updated__lte=time_threshold, active=True` (a NULL `vmp_updated`
never satisfies an SQL `<=`). -/
def staleActive (threshold : ℤ) (b : Beer) : Bool :=
  (match b.vmp_updated with
   | some t => decide (t ≤ threshold)
   | none => false) && b.active

/-- `Command.handle` of deactivate_inactive: `now - timedelta(days=days)`
is `now - days` with time measured in days.  Step 1 is the bulk
`update(active=False)` over the lazy queryset; step 2 is the bulk stock
update whose `beer__in=<queryset>` condition is compiled as a subquery
and therefore evaluated against the table state *after* step 1. -/
def deactivateInactive (now days : ℤ) (beers : List Beer) (stocks : List Stock) :
    List Beer × List Stock :=
  let threshold := now - days
  let beers' := beers.map (fun b =>
    if staleActive threshold b then { b with active := false } else b)
  let stocks' := stocks.map (fun s =>
    if beers'.any (fun b => staleActive threshold b && decide (b.vmp_id = s.beer)) then
      { s with quantity := 0, unstocked_at := some now }
    else s)
  (beers', stocks')

/-! ## Store stock pass (management/commands/update_stock_from_vmp.py)

A pass over one store is abstracted by the list `seen` of
`(beer pk, quantity)` pairs the category pages yielded, in processing
order; the API calls, pagination and quantity extraction sit outside the
claims.  Stock uniqueness per (store, beer) is the model's
`unique_together` constraint, so the row lookup of `_update_beer_stock`
is rendered as a map over all (equivalently, the unique) matching rows. -/

/-- `Command._update_beer_stock` for one seen product. -/
def updateBeerStock (now : ℤ) (store beerPk quantity : ℤ) (stocks : List Stock) :
    List Stock :=
  if stocks.any (fun s => decide (s.store = store ∧ s.beer = beerPk)) then
    stocks.map (fun s =>
      if s.store = store ∧ s.beer = beerPk then
        { s with
          stocked_at := if s.quantity = 0 ∧ quantity ≠ 0 then some now else s.stocked_at,
          quantity := quantity }
      else s)
  else stocks ++ [⟨store, beerPk, quantity, some now, none⟩]

/-- The category-page loops of `_update_store_stock`: every seen product
updates its stock row in order. -/
def processSeen (now : ℤ) (store : ℤ) (seen : List (ℤ × ℤ)) (stocks : List Stock) :
    List Stock :=
  seen.foldl (fun st p => updateBeerStock now store p.1 p.2 st) stocks

/-- `Command._unstock_missing_beers`. -/
def unstockMissing (now : ℤ) (store : ℤ) (seenBeers : List ℤ) (stocks : List Stock) :
    List Stock :=
  stocks.map (fun s =>
    if s.store = store ∧ s.beer ∉ seenBeers ∧ s.quantity ≠ 0 then
      { s with quantity := 0, unstocked_at := some now }
    else s)

/-- `Command._update_store_stock`: process every seen product, then —
only when at least one product was seen (`if stocked_beers:`) — zero the
untouched nonzero rows of the store. -/
def updateStoreStock (now : ℤ) (store : ℤ) (seen : List (ℤ × ℤ)) (stocks : List Stock) :
    List Stock :=
  let st := processSeen now store seen stocks
  if seen = [] then st else unstockMissing now store (seen.map Prod.fst) st

/-! ## Checkin extraction (api/beers/api/utils.py)

A parsed record is a dictionary; the values a CSV or JSON reader can put
under the keys used by `_extract_checkin_data` are strings, ints or
floats, modelled by `PyVal`.  `parseFmt` abstracts the
`datetime.strptime` chain over `_DATETIME_FORMATS` (a libc facility, not
repository code): it receives the stripped string and returns the parsed
instant, `none` when no format matches. -/

inductive PyVal where
  | pstr (s : String)
  | pint (n : ℤ)
  | pfloat (q : ℚ)
  deriving Repr, DecidableEq

/-- Python truthiness on the values that occur here. -/
def truthy : PyVal → Bool
  | .pstr s => s ≠ ""
  | .pint n => n ≠ 0
  | .pfloat q => q ≠ 0

/-- Truthiness of an optional value (`None` is falsy). -/
def truthyOpt : Option PyVal → Bool
  | none => false
  | some v => truthy v

/-- Python `int(v)`: parse for strings, identity for ints, truncation
toward zero for floats; `none` is the ValueError path. -/
def pyToInt : PyVal → Option ℤ
  | .pstr s => strToInt s
  | .pint n => some n
  | .pfloat q => some (q.num / (q.den : ℤ))

/-- Python `float(v)`. -/
def pyToFloat : PyVal → Option ℚ
  | .pstr s => strToFloat s
  | .pint n => some ((n : ℚ))
  | .pfloat q => some q

/-- One record of an uploaded file, holding the keys
`_extract_checkin_data` reads (`none` = key absent). -/
structure Row where
  bid : Option PyVal
  beer_id : Option PyVal
  beer_url : Option PyVal
  rating_score : Option PyVal
  created_at : Option PyVal
  deriving Repr, DecidableEq

/-- A normalized checkin tuple `(beer_id, rating, checkin_at)`. -/
abbrev CheckinTuple := ℤ × Option ℚ × Option ℚ

/-- `_parse_checkin_time`. -/
def parseCheckinTime (parseFmt : String → Option ℚ) : Option PyVal → Option ℚ
  | none => none
  | some v =>
    if truthy v then
      match v with
      | .pint n => some ((n : ℚ))
      | .pfloat q => some q
      | .pstr s => parseFmt (pyStrip s)
    else none

/-- `_extract_checkin_data`. -/
def extractCheckinData (parseFmt : String → Option ℚ) (row : Row) : Option CheckinTuple :=
  -- beer_id = row.get("bid") or row.get("beer_id")
  let bid0 : Option PyVal :=
    match row.bid with
    | some v => if truthy v then some v else row.beer_id
    | none => row.beer_id
  -- if not beer_id and (url := row.get("beer_url")): trailing path segment
  -- (a non-string url raises AttributeError, which is swallowed)
  let bid1 : Option PyVal :=
    if truthyOpt bid0 then bid0
    else
      match row.beer_url with
      | some (.pstr s) =>
        if s ≠ "" then some (.pstr (lastSegment (rstripSlash s))) else bid0
      | _ => bid0
  if truthyOpt bid1 then
    match bid1 with
    | some v =>
      match pyToInt v with
      | some beerId =>
        let rating : Option ℚ :=
          match row.rating_score with
          | some rv =>
            if truthy rv then
              match pyToFloat rv with
              | some f => if f = 0 then none else some f
              | none => none
            else none
          | none => none
        some (beerId, rating, parseCheckinTime parseFmt row.created_at)
      | none => none
    | none => none
  else none

/-- `parse_untappd_file`: dispatch on the lowercased filename extension.
`csvRows` and `jsonItems` stand for what `csv.DictReader` respectively
`json.load` decode from the upload, and `jsonIsList` for the
`isinstance(data, list)` test. -/
def parseUntappdFile (parseFmt : String → Option ℚ) (filename : String)
    (csvRows jsonItems : List Row) (jsonIsList : Bool) : Option (List CheckinTuple) :=
  if endsWith (pyLower filename) ".csv" then
    some (csvRows.filterMap (extractCheckinData parseFmt))
  else if endsWith (pyLower filename) ".json" then
    if jsonIsList then some (jsonItems.filterMap (extractCheckinData parseFmt)) else some []
  else none

/-! ## Checkin ingestion and resync (api/beers/api/utils.py)

The `UntappdCheckin` model class itself is not part of the sources (it
is only imported from `beers.models`); its row shape below is read off
its uses in utils.py and sync_rss_feeds.py.

Modelled from the spec: the missing `UntappdCheckin` model declaration —
per §3 a RawCheckin carries the owning user, the external beer id, a
rating, an event timestamp and a `synced` flag that starts false at
ingestion, and the dedup key is unique. -/

structure UntappdCheckin where
  id : ℕ
  user : ℕ
  untpd_beer_id : ℤ
  rating : Option ℚ
  checkin_at : Option ℚ
  synced : Bool
  deriving Repr, DecidableEq

/-- A `Tasted` row (models.py): unique per (user, beer). -/
structure Tasted where
  user : ℕ
  beer : ℤ
  rating : Option ℚ
  deriving Repr, DecidableEq

/-- The slice of the database the ingestion engine touches.  `nextId` is
the auto-increment counter of the UntappdCheckin table. -/
structure DB where
  beers : List Beer
  checkins : List UntappdCheckin
  tasted : List Tasted
  nextId : ℕ
  deriving Repr, DecidableEq

/-- `_pick_higher`. -/
def pickHigher (a b : Option ℚ) : Option ℚ :=
  match a, b with
  | none, b => b
  | a, none => a
  | some x, some y => some (max x y)

/-- `_pick_earlier`. -/
def pickEarlier (a b : Option ℚ) : Option ℚ :=
  match a, b with
  | none, b => b
  | a, none => a
  | some x, some y => some (min x y)

/-- Lookup in the insertion-ordered dictionary `best` of
`_dedup_checkins`. -/
def alistGet (l : List (ℤ × Option ℚ × Option ℚ)) (k : ℤ) : Option (Option ℚ × Option ℚ) :=
  (l.find? (fun p => decide (p.1 = k))).map (fun p => p.2)

/-- Assignment `best[beer_id] = v`: in-place for a present key, appended
for a new one (Python dicts keep insertion order). -/
def alistSet (l : List (ℤ × Option ℚ × Option ℚ)) (k : ℤ) (v : Option ℚ × Option ℚ) :
    List (ℤ × Option ℚ × Option ℚ) :=
  if l.any (fun p => decide (p.1 = k)) then
    l.map (fun p => if p.1 = k then (k, v) else p)
  else l ++ [(k, v)]

/-- `_dedup_checkins`. -/
def dedupCheckins (checkins : List CheckinTuple) : List (ℤ × Option ℚ × Option ℚ) :=
  checkins.foldl (fun best c =>
    let prev := (alistGet best c.1).getD (none, none)
    alistSet best c.1 (pickHigher prev.1 c.2.1, pickEarlier prev.2 c.2.2)) []

/-- The `existing` dictionary of `_save_checkins`, at one key: the
(unique, but in general last) row of this user for this beer id. -/
def existingCheckin (db : DB) (user : ℕ) (uid : ℤ) : Option UntappdCheckin :=
  (db.checkins.filter (fun c => decide (c.user = user ∧ c.untpd_beer_id = uid))).getLast?

/-- `bulk_create` of the missing rows, with sequential primary keys and
`synced` starting false. -/
def mkCheckinRows (user : ℕ) : ℕ → List (ℤ × Option ℚ × Option ℚ) → List UntappdCheckin
  | _, [] => []
  | nid, e :: es => ⟨nid, user, e.1, e.2.1, e.2.2, false⟩ :: mkCheckinRows user (nid + 1) es

/-- The `bulk_update` merge of `_save_checkins` on one stored row. -/
def mergeCheckin (user : ℕ) (deduped : List (ℤ × Option ℚ × Option ℚ))
    (c : UntappdCheckin) : UntappdCheckin :=
  if c.user = user then
    match alistGet deduped c.untpd_beer_id with
    | some (r, t) =>
      { c with rating := pickHigher c.rating r, checkin_at := pickEarlier c.checkin_at t }
    | none => c
  else c

/-- `_save_checkins`: create one row per key with no existing row, merge
(higher rating, earlier timestamp) into the rows that exist. -/
def saveCheckins (user : ℕ) (deduped : List (ℤ × Option ℚ × Option ℚ)) (db : DB) : DB :=
  let newEntries := deduped.filter (fun e => (existingCheckin db user e.1).isNone)
  let created := mkCheckinRows user db.nextId newEntries
  { db with
    checkins := db.checkins.map (mergeCheckin user deduped) ++ created,
    nextId := db.nextId + created.length }

/-- The Beer-table lookup `{b.untpd_id: b for b in ...}` at one key
(a Python dict comprehension keeps the last row on duplicates). -/
def beerByUntpd (beers : List Beer) (uid : ℤ) : Option Beer :=
  (beers.filter (fun b => decide (b.untpd_id = some uid))).getLast?

/-- Foreign-key resolution of a Tasted row's beer by primary key. -/
def beerByPk (beers : List Beer) (pk : ℤ) : Option Beer :=
  (beers.filter (fun b => decide (b.vmp_id = pk))).getLast?

/-- The keys of `untpd_to_beer` in `_sync_matched_checkins`: deduped
keys for which a Beer with that untpd id exists. -/
def matchedKeys (deduped : List (ℤ × Option ℚ × Option ℚ)) (beers : List Beer) : List ℤ :=
  (deduped.map (fun e => e.1)).filter (fun uid => (beerByUntpd beers uid).isSome)

/-- Membership in the `existing_tasted` set of `_sync_matched_checkins`:
this user already has a Tasted row for a beer with this untpd id. -/
def existsTastedFor (db : DB) (user : ℕ) (uid : ℤ) : Bool :=
  db.tasted.any (fun t =>
    decide (t.user = user) &&
      (match beerByPk db.beers t.beer with
       | some b => decide (b.untpd_id = some uid)
       | none => false))

/-- `_sync_matched_checkins`: create the missing Tasted rows for the
matched keys, mark the matched checkins of this user synced; returns the
new state and `imported_count`. -/
def syncMatchedCheckins (user : ℕ) (deduped : List (ℤ × Option ℚ × Option ℚ))
    (db : DB) : DB × ℕ :=
  let keys := matchedKeys deduped db.beers
  if keys = [] then (db, 0)
  else
    let toCreate := keys.filterMap (fun uid =>
      if existsTastedFor db user uid then none
      else (beerByUntpd db.beers uid).map (fun b =>
        (⟨user, b.vmp_id, (alistGet deduped uid).bind (fun p => p.1)⟩ : Tasted)))
    let db' := { db with
      tasted := db.tasted ++ toCreate,
      checkins := db.checkins.map (fun c =>
        if c.user = user ∧ c.untpd_beer_id ∈ keys then { c with synced := true } else c) }
    (db', toCreate.length)

/-- `bulk_import_tasted`: returns the new state together with
`(imported_count, total_check_ins)`. -/
def bulkImportTasted (user : ℕ) (checkins : List CheckinTuple) (db : DB) :
    DB × ℕ × ℕ :=
  let deduped := dedupCheckins checkins
  let db1 := saveCheckins user deduped db
  let (db2, imported) := syncMatchedCheckins user deduped db1
  (db2, imported, checkins.length)

/-- The accumulator of the `sync_unmatched_checkins` loop:
`existing_tasted` (as a pair list), `tasted_to_create`, `users_affected`
(in first-seen order) and `checkin_ids_to_mark`. -/
structure SweepAcc where
  pairs : List (ℕ × ℤ)
  toCreate : List Tasted
  users : List ℕ
  ids : List ℕ
  deriving Repr, DecidableEq

/-- The initial `existing_tasted` set: (user, beer untpd id) pairs
joined from the Tasted table.  (The source restricts the join to the
untpd ids under consideration; the extra pairs kept here are never
looked up.) -/
def tastedPairs (db : DB) : List (ℕ × ℤ) :=
  db.tasted.filterMap (fun t =>
    (beerByPk db.beers t.beer).bind (fun b => b.untpd_id.map (fun uid => (t.user, uid))))

/-- One iteration of the `for checkin in matchable` loop. -/
def sweepStep (beers : List Beer) (acc : SweepAcc) (c : UntappdCheckin) : SweepAcc :=
  let key := (c.user, c.untpd_beer_id)
  if key ∈ acc.pairs then { acc with ids := acc.ids ++ [c.id] }
  else
    match beerByUntpd beers c.untpd_beer_id with
    | some b =>
      { pairs := key :: acc.pairs,
        toCreate := acc.toCreate ++ [⟨c.user, b.vmp_id, c.rating⟩],
        users := acc.users ++ [c.user],
        ids := acc.ids ++ [c.id] }
    | none => { acc with ids := acc.ids ++ [c.id] }

/-- `sync_unmatched_checkins`: returns the new state together with
`(synced_count, users_affected)`. -/
def syncUnmatchedCheckins (db : DB) : DB × ℕ × ℕ :=
  let unsynced := db.checkins.filter (fun c => c.synced = false)
  if unsynced = [] then (db, 0, 0)
  else
    let matchable := unsynced.filter (fun c => (beerByUntpd db.beers c.untpd_beer_id).isSome)
    if matchable = [] then (db, 0, 0)
    else
      let acc := matchable.foldl (sweepStep db.beers) ⟨tastedPairs db, [], [], []⟩
      let db' := { db with
        tasted := db.tasted ++ acc.toCreate,
        checkins := db.checkins.map (fun c =>
          if c.id ∈ acc.ids then { c with synced := true } else c) }
      (db', acc.toCreate.length, acc.users.dedup.length)

/-! ## The import endpoint (api/beers/api/views.py, bulk_mark_tasted)

Only the paths after a file was provided and decoded are modelled: the
dispatch on `parse_untappd_file` and the two validation rejections. -/

inductive Resp where
  | err (status : ℕ) (msg : String)
  | ok (imported total : ℕ)
  deriving Repr, DecidableEq

/-- `bulk_mark_tasted` (views.py). -/
def bulkMarkTasted (parseFmt : String → Option ℚ) (user : ℕ) (filename : String)
    (csvRows jsonItems : List Row) (jsonIsList : Bool) (db : DB) : Resp × DB :=
  match parseUntappdFile parseFmt filename csvRows jsonItems jsonIsList with
  | none => (.err 400 "Unsupported file format. Use .csv or .json", db)
  | some [] => (.err 400 "No valid beer IDs found in file", db)
  | some checkins =>
    match bulkImportTasted user checkins db with
    | (db', imported, total) => (.ok imported total, db')

/-! ## Concrete instances used by witnesses and counterexamples -/

/-- A Beer row with every nullable field empty and the Boolean flags at
their model defaults. -/
def beer0 : Beer :=
  { vmp_id := 1, vmp_name := "", price_per_volume := none, untpd_id := none,
    untpd_name := none, untpd_url := none, verified_match := false,
    match_manually := false, prioritize_recheck := false, brewery := none,
    rating := none, checkins := none, style := none, description := none,
    abv := none, ibu := none, label_hd_url := none, label_sm_url := none,
    alcohol_units := none, vmp_updated := none, untpd_updated := none,
    active := true }

/-- A Beer with every source-B field populated. -/
def richBeer : Beer :=
  { beer0 with
    untpd_id := some 7, untpd_name := some "Xmas Ale", untpd_url := some "https://untappd.com/beer/7",
    verified_match := true, prioritize_recheck := true, brewery := some "B",
    rating := some 4, checkins := some 9, style := some "IPA",
    description := some "d", abv := some 5, ibu := some 30,
    label_hd_url := some "hd", label_sm_url := some "sm",
    alcohol_units := some 2, untpd_updated := some 10 }

/-- A stale active catalog entry (updated at time 50). -/
def staleBeer : Beer := { beer0 with vmp_id := 101, vmp_updated := some 50 }

/-- A nonzero stock row referencing `staleBeer`. -/
def staleStock : Stock := ⟨3, 101, 5, some 40, none⟩

/-- Search stub for the threshold counterexample: the full name yields a
poor candidate, the three-word truncation an exact one. -/
def cSearch3 : String → Option (List SearchResult) := fun q =>
  if q = "Aaa Bbb Ccc Ddd" then some [("Low", "1", "u1")]
  else if q = "Aaa Bbb Ccc" then some [("Aaa Bbb Ccc Ddd", "2", "u2")]
  else none

/-- Scorer stub: the poor candidate scores exactly 40, everything else 100. -/
def cScore3 : String → String → ℕ := fun _ c => if c = "Low" then 40 else 100

/-- The beer processed in the threshold counterexample. -/
def beer3 : Beer := { beer0 with vmp_name := "Aaa Bbb Ccc Ddd" }

/-- Search stub with a single confident hit. -/
def cSearch4 : String → Option (List SearchResult) := fun q =>
  if q = "Polarpils" then some [("Polarpils", "77", "https://untappd.com/b/77")] else none

/-- Scorer stub: everything scores 95. -/
def cScore4 : String → String → ℕ := fun _ _ => 95

/-- The beer processed in the accepting-save counterexample. -/
def beer4 : Beer := { beer0 with vmp_name := "Polarpils" }

/-- A redirect resolver that always fails (forcing the as-is fallback). -/
def resolver0 : String → Option String := fun _ => none

/-- A WrongMatch suggestion with a plain (non-shortlink) url. -/
def wm1 : WrongMatch := ⟨"https://untappd.com/beer/123", false⟩

/-- A Beer already matched to the url suggested by `wm1`. -/
def beerMatched : Beer := { beer0 with untpd_url := some "https://untappd.com/beer/123" }

/-- A nonzero stock row for the store-stock counterexample. -/
def stock7 : Stock := ⟨1, 7, 5, none, none⟩

/-- An upload record with no beer id in any field. -/
def badRow : Row := ⟨none, none, none, none, none⟩

/-- A strptime stub used by concrete import runs. -/
def parseFmt0 : String → Option ℚ := fun _ => none

/-- An empty ingestion database. -/
def db0 : DB := ⟨[], [], [], 0⟩

/-! ## General helper lemmas -/

theorem map_eq_self_of {α : Type} {l : List α} {f : α → α} (h : ∀ a ∈ l, f a = a) :
    l.map f = l := by
  induction l with
  | nil => rfl
  | cons a t ih =>
    simp only [List.map_cons, h a (List.mem_cons_self a t)]
    rw [ih (fun x hx => h x (List.mem_cons_of_mem a hx))]

/-! ## C1: the deactivation sweep -/

/-- After the bulk `active=False` update, no beer still satisfies the
sweep's filter, so the subsequent stock update matches no row at all:
the sweep never touches the Stock table. -/
theorem deactivateInactive_stocks_unchanged (now days : ℤ) (beers : List Beer)
    (stocks : List Stock) : (deactivateInactive now days beers stocks).2 = stocks := by
  unfold deactivateInactive
  apply map_eq_self_of
  intro s _
  have hall : ∀ b ∈ beers.map (fun b =>
      if staleActive (now - days) b then { b with active := false } else b),
      staleActive (now - days) b = false := by
    intro b hb
    obtain ⟨b0, _, rfl⟩ := List.mem_map.mp hb
    by_cases h : staleActive (now - days) b0
    · simp only [h, if_true]
      unfold staleActive
      simp
    · simp only [h, if_false]
      exact Bool.not_eq_true _ |>.mp h
  have : (beers.map (fun b =>
      if staleActive (now - days) b then { b with active := false } else b)).any
      (fun b => staleActive (now - days) b && decide (b.vmp_id = s.beer)) = false := by
    rw [List.any_eq_false]
    intro b hb
    simp [hall b hb]
  simp [this]

/-- C1: a Product whose `vmp_updated` (time 50) lies at or before the
threshold (now 100 minus 30 days) and which is active is deactivated by
the sweep — but its nonzero Stock row keeps quantity 5 and a null
`unstocked_at`, because the lazy queryset is re-evaluated after the
`active=False` update and then matches nothing.  The claim instead
requires quantity 0 and a set `unstocked_at`. -/
theorem deactivate_inactive_failing_input :
    deactivateInactive 100 30 [staleBeer] [staleStock] =
      ([{ staleBeer with active := false }], [staleStock]) ∧
    staleStock.quantity = 5 ∧ staleStock.unstocked_at = none := by
  refine ⟨?_, rfl, rfl⟩
  rfl

/-! ## C9: value_score -/

/-- C9: `value_score` is a number exactly when both `rating` and
`price_per_volume` are present and strictly positive (missing, zero or
negative values give None), and in the defined case the divisor
`(price_per_volume/100) ** 0.32` is nonzero, so the division is safe. -/
theorem value_score_defined_iff (b : Beer) :
    ((value_score b).isSome = true ↔
      (∃ r, b.rating = some r ∧ 0 < r) ∧ (∃ p, b.price_per_volume = some p ∧ 0 < p))
    ∧ (∀ r p, b.rating = some r → b.price_per_volume = some p → 0 < r → 0 < p →
        ((p : ℝ) / 100) ^ (0.32 : ℝ) ≠ 0) := by
  constructor
  · cases hr : b.rating with
    | none => simp [value_score, hr]
    | some r =>
      cases hp : b.price_per_volume with
      | none => simp [value_score, hr, hp]
      | some p =>
        simp only [value_score, hr, hp]
        constructor
        · intro h
          by_cases hc : r ≠ 0 ∧ 0 < r ∧ p ≠ 0 ∧ 0 < p
          · exact ⟨⟨r, rfl, hc.2.1⟩, ⟨p, rfl, hc.2.2.2⟩⟩
          · simp [hc] at h
        · rintro ⟨⟨r', hr', hrpos⟩, ⟨p', hp', hppos⟩⟩
          obtain rfl : r = r' := by injection hr'
          obtain rfl : p = p' := by injection hp'
          have hc : r ≠ 0 ∧ 0 < r ∧ p ≠ 0 ∧ 0 < p :=
            ⟨ne_of_gt hrpos, hrpos, ne_of_gt hppos, hppos⟩
          simp [hc]
  · intro r p _ hp hr0 hp0
    have hpos : (0 : ℝ) < (p : ℝ) / 100 := by
      have : (0 : ℝ) < (p : ℝ) := by exact_mod_cast hp0
      linarith
    exact ne_of_gt (Real.rpow_pos_of_pos hpos _)

/-- Witness for C9 at concrete inputs: rating 4 with price-per-volume 50
gives a defined score; rating 0 gives None. -/
theorem value_score_defined_iff_witness :
    (value_score { beer0 with rating := some 4, price_per_volume := some 50 }).isSome = true
    ∧ value_score { beer0 with rating := some 0, price_per_volume := some 50 } = none := by
  constructor
  · exact (value_score_defined_iff _).1.mpr
      ⟨⟨4, rfl, by norm_num⟩, ⟨50, rfl, by norm_num⟩⟩
  · have h := (value_score_defined_iff
      { beer0 with rating := some 0, price_per_volume := some 50 }).1
    rw [← Option.not_isSome_iff_eq_none]
    intro hs
    obtain ⟨⟨r, hr, hrpos⟩, _⟩ := h.mp hs
    have : r = 0 := by injection hr with h'; exact h'.symm
    rw [this] at hrpos
    exact lt_irrefl 0 hrpos

/-! ## C5: the manual-match hard reset -/

/-- C5: saving a Beer on which `match_manually` alone was flipped to
true clears every source-B-derived field in that same save. -/
theorem manual_match_reset (snap : Beer) (h : snap.match_manually = false) :
    ∃ b, beerSave snap { snap with match_manually := true } = some b ∧
      b.untpd_id = none ∧ b.untpd_name = none ∧ b.untpd_url = none ∧
      b.verified_match = false ∧ b.prioritize_recheck = false ∧ b.brewery = none ∧
      b.rating = none ∧ b.checkins = none ∧ b.style = none ∧ b.description = none ∧
      b.abv = none ∧ b.ibu = none ∧ b.label_hd_url = none ∧ b.label_sm_url = none ∧
      b.alcohol_units = none ∧ b.untpd_updated = none := by
  refine ⟨clearUntappdFields { snap with match_manually := true }, ?_,
    rfl, rfl, rfl, rfl, rfl, rfl, rfl, rfl, rfl, rfl, rfl, rfl, rfl, rfl, rfl, rfl⟩
  obtain ⟨⟩ := snap
  simp_all [beerSave, onlyDirtyUntpdUrl, onlyDirtyMatchManually]

/-- Witness for C5: the reset applied to a Beer with every source-B
field populated. -/
theorem manual_match_reset_witness :
    ∃ b, beerSave richBeer { richBeer with match_manually := true } = some b ∧
      b.untpd_id = none ∧ b.untpd_name = none ∧ b.untpd_url = none ∧
      b.verified_match = false ∧ b.prioritize_recheck = false ∧ b.brewery = none ∧
      b.rating = none ∧ b.checkins = none ∧ b.style = none ∧ b.description = none ∧
      b.abv = none ∧ b.ibu = none ∧ b.label_hd_url = none ∧ b.label_sm_url = none ∧
      b.alcohol_units = none ∧ b.untpd_updated = none :=
  manual_match_reset richBeer rfl

/-! ## C6: WrongMatch auto-accept -/

/-- If the in-memory row carries a url whose trailing segment parses to
its own `untpd_id` and `match_manually` is off, `Beer.save` persists a
row with that same url and id (whichever dirty-field branch fires). -/
theorem beerSave_keeps_url_id (snap cur : Beer) (n : ℤ) (u : String)
    (hid : cur.untpd_id = some n) (hurl : cur.untpd_url = some u)
    (hparse : strToInt (lastSegment u) = some n) (hmm : cur.match_manually = false) :
    ∃ b, beerSave snap cur = some b ∧ b.untpd_url = some u ∧ b.untpd_id = some n := by
  unfold beerSave
  by_cases h1 : (onlyDirtyUntpdUrl snap cur && cur.untpd_url.isSome) = true
  · rw [if_pos h1, hurl]
    dsimp only
    rw [hparse, Option.map_some']
    exact ⟨_, rfl, rfl, rfl⟩
  · rw [if_neg h1, if_neg (by simp [hmm])]
    exact ⟨cur, rfl, hurl, hid⟩

/-- C6: with the global auto-accept option active, saving a WrongMatch
whose resolved url differs from the Product's current source-B url
rewrites the Product's url and id (to the url's trailing path segment)
and deletes the WrongMatch; when the resolved url equals the current one
the Product is untouched and the WrongMatch is still deleted; with the
option inactive (or absent) and `accept_change` false, the WrongMatch
persists and the Product is untouched. -/
theorem wrong_match_auto_accept :
    (∀ (resolver : String → Option String) (beer : Beer) (wm : WrongMatch) (n : ℤ),
      strToInt (lastSegment (resolvedUrl resolver wm.suggested_url)) = some n →
      some (resolvedUrl resolver wm.suggested_url) ≠ beer.untpd_url →
      (wrongMatchSave (some true) resolver beer wm).1.untpd_url =
          some (resolvedUrl resolver wm.suggested_url) ∧
        (wrongMatchSave (some true) resolver beer wm).1.untpd_id = some n ∧
        (wrongMatchSave (some true) resolver beer wm).2 = false)
    ∧ (∀ (resolver : String → Option String) (beer : Beer) (wm : WrongMatch),
      some (resolvedUrl resolver wm.suggested_url) = beer.untpd_url →
      wrongMatchSave (some true) resolver beer wm = (beer, false))
    ∧ (∀ (autoAccept : Option Bool) (resolver : String → Option String)
        (beer : Beer) (wm : WrongMatch),
      autoAccept ≠ some true → wm.accept_change = false →
      wrongMatchSave autoAccept resolver beer wm = (beer, true)) := by
  refine ⟨?_, ?_, ?_⟩
  · intro resolver beer wm n hn hne
    unfold wrongMatchSave
    rw [if_pos (And.intro (show acceptFlag (some true) wm = true from rfl) hne), hn]
    dsimp only
    obtain ⟨b, hb, hu, hi⟩ := beerSave_keeps_url_id beer
      { beer with
        untpd_url := some (resolvedUrl resolver wm.suggested_url), untpd_id := some n,
        prioritize_recheck := true, verified_match := true, match_manually := false }
      n (resolvedUrl resolver wm.suggested_url) rfl rfl hn rfl
    rw [hb]
    exact ⟨hu, hi, rfl⟩
  · intro resolver beer wm heq
    unfold wrongMatchSave
    rw [if_neg (fun h => h.2 heq),
      if_pos (And.intro (show acceptFlag (some true) wm = true from rfl) heq)]
  · intro autoAccept resolver beer wm hne hac
    have haccept : acceptFlag autoAccept wm = false := by
      unfold acceptFlag
      cases autoAccept with
      | none => exact hac
      | some a =>
        cases a with
        | false => simp [hac]
        | true => exact absurd rfl hne
    unfold wrongMatchSave
    rw [if_neg (fun h => by rw [haccept] at h; exact Bool.false_ne_true h.1),
      if_neg (fun h => by rw [haccept] at h; exact Bool.false_ne_true h.1)]

/-- Witness for C6: the three cases at concrete inputs — a fresh Beer
with auto-accept on (url and id rewritten, WrongMatch gone), an already
matching Beer (no-op, WrongMatch gone), and auto-accept off with
`accept_change` false (everything kept). -/
theorem wrong_match_auto_accept_witness :
    ((wrongMatchSave (some true) resolver0 beer0 wm1).1.untpd_url =
        some (resolvedUrl resolver0 wm1.suggested_url) ∧
      (wrongMatchSave (some true) resolver0 beer0 wm1).1.untpd_id = some 123 ∧
      (wrongMatchSave (some true) resolver0 beer0 wm1).2 = false)
    ∧ wrongMatchSave (some true) resolver0 beerMatched wm1 = (beerMatched, false)
    ∧ wrongMatchSave (some false) resolver0 beer0 wm1 = (beer0, true) :=
  ⟨wrong_match_auto_accept.1 resolver0 beer0 wm1 123 (by decide) (by decide),
   wrong_match_auto_accept.2.1 resolver0 beerMatched wm1 (by decide),
   wrong_match_auto_accept.2.2 (some false) resolver0 beer0 wm1 (by decide) rfl⟩

/-! ## C3 / C4: fuzzy matching -/

theorem getLast?_mem {α : Type} {l : List α} {a : α} (h : l.getLast? = some a) : a ∈ l := by
  obtain ⟨hne, rfl⟩ := List.mem_getLast?_eq_getLast (show a ∈ l.getLast? by rw [h]; rfl)
  exact List.getLast_mem hne

/-- `_mark_as_failed` always leaves `match_manually` true (whatever
dirty-field branch its save takes). -/
theorem markAsFailed_match_manually (b : Beer) : (markAsFailed b).match_manually = true := by
  unfold markAsFailed beerSave
  have h1 : onlyDirtyUntpdUrl b
      { b with description := some "Missing on Untappd.", match_manually := true } = false := by
    unfold onlyDirtyUntpdUrl
    simp
  rw [h1, Bool.false_and]
  by_cases h2 : (onlyDirtyMatchManually b
      { b with description := some "Missing on Untappd.", match_manually := true } &&
      ({ b with description := some "Missing on Untappd.", match_manually := true } : Beer).match_manually) = true
  · rw [if_neg (by simp), if_pos h2]
    rfl
  · rw [if_neg (by simp), if_neg h2]
    rfl

theorem extractOneAux_fst_mem (score : String → String → ℕ) (query : String) :
    ∀ (l : List String) (best : String × ℕ),
      (extractOneAux score query best l).1 = best.1 ∨ (extractOneAux score query best l).1 ∈ l := by
  intro l
  induction l with
  | nil => intro best; exact Or.inl rfl
  | cons c cs ih =>
    intro best
    rcases ih (if best.2 < score query c then (c, score query c) else best) with h | h
    · by_cases hc : best.2 < score query c
      · rw [if_pos hc] at h
        exact Or.inr (by rw [show extractOneAux score query best (c :: cs) =
          extractOneAux score query (if best.2 < score query c then (c, score query c) else best) cs
          from rfl, if_pos hc, h]; exact List.mem_cons_self c cs)
      · rw [if_neg hc] at h
        exact Or.inl (by rw [show extractOneAux score query best (c :: cs) =
          extractOneAux score query (if best.2 < score query c then (c, score query c) else best) cs
          from rfl, if_neg hc, h])
    · exact Or.inr (List.mem_cons_of_mem c (by
        rwa [show extractOneAux score query best (c :: cs) =
          extractOneAux score query (if best.2 < score query c then (c, score query c) else best) cs
          from rfl]))

/-- A nonempty choice list always yields a best candidate, and it comes
from the list. -/
theorem extractOne_spec (score : String → String → ℕ) (query : String)
    (l : List String) (h : l ≠ []) :
    ∃ c s, extractOne score query l = some (c, s) ∧ c ∈ l := by
  cases l with
  | nil => exact absurd rfl h
  | cons c cs =>
    refine ⟨(extractOneAux score query (c, score query c) cs).1,
      (extractOneAux score query (c, score query c) cs).2, ?_, ?_⟩
    · rw [Prod.mk.eta]; rfl
    · rcases extractOneAux_fst_mem score query cs (c, score query c) with h' | h'
      · rw [h']; exact List.mem_cons_self c cs
      · exact List.mem_cons_of_mem c h'

/-- A beer with a low-scoring best candidate is routed straight to
manual matching. -/
theorem processBeer_low_score (search : String → Option (List SearchResult))
    (score : String → String → ℕ) (b : Beer) (r : SearchResult) (s : ℕ)
    (hfind : findBeerMatch search score b.vmp_name = some (r, s)) (hs : s ≤ 40) :
    (processBeer search score b).match_manually = true := by
  unfold processBeer
  rw [hfind]
  dsimp only
  rw [if_neg (by omega)]
  exact markAsFailed_match_manually b

/-- A beer with no match at all is routed to manual matching. -/
theorem processBeer_no_match (search : String → Option (List SearchResult))
    (score : String → String → ℕ) (b : Beer)
    (hfind : findBeerMatch search score b.vmp_name = none) :
    (processBeer search score b).match_manually = true := by
  unfold processBeer
  rw [hfind]
  exact markAsFailed_match_manually b

/-- The accepting save of `_process_beer`: with `untpd_id` previously
null, the save persists exactly the row with the candidate's id and url
(no dirty-field branch of `Beer.save` fires). -/
theorem processBeer_accept (search : String → Option (List SearchResult))
    (score : String → String → ℕ) (b : Beer) (r : SearchResult) (s : ℕ) (n : ℤ)
    (hid : b.untpd_id = none)
    (hfind : findBeerMatch search score b.vmp_name = some (r, s)) (hs : 40 < s)
    (hn : strToInt r.2.1 = some n) :
    processBeer search score b = { b with untpd_id := some n, untpd_url := some r.2.2 } := by
  have h1 : onlyDirtyUntpdUrl b { b with untpd_id := some n, untpd_url := some r.2.2 } = false := by
    unfold onlyDirtyUntpdUrl
    have hne : ¬({ ({ b with untpd_id := some n, untpd_url := some r.2.2 } : Beer) with
        untpd_url := b.untpd_url } = b) := by
      intro h
      have h' : some n = b.untpd_id := congrArg Beer.untpd_id h
      rw [hid] at h'
      exact Option.noConfusion h'
    rw [decide_eq_false hne, Bool.and_false]
  have h2 : onlyDirtyMatchManually b
      { b with untpd_id := some n, untpd_url := some r.2.2 } = false := by
    unfold onlyDirtyMatchManually
    simp
  have key : beerSave b { b with untpd_id := some n, untpd_url := some r.2.2 } =
      some { b with untpd_id := some n, untpd_url := some r.2.2 } := by
    unfold beerSave
    rw [h1, Bool.false_and, h2, Bool.false_and]
    simp
  unfold processBeer
  rw [hfind]
  dsimp only
  rw [if_pos hs, hn]
  dsimp only
  rw [key]

/-- C3 (counterexample): the first query variant of
"Aaa Bbb Ccc Ddd" yields a candidate with best score exactly 40, the
second variant would yield a perfect-scoring candidate, yet the beer is
routed to manual matching: a low score does not advance to the next
variant. -/
theorem fuzzy_low_score_no_next_variant :
    findBeerMatch cSearch3 cScore3 "Aaa Bbb Ccc Ddd" = some (("Low", "1", "u1"), 40) ∧
    "Aaa Bbb Ccc" ∈ generateQueryVariations "Aaa Bbb Ccc Ddd" ∧
    cSearch3 "Aaa Bbb Ccc" = some [("Aaa Bbb Ccc Ddd", "2", "u2")] ∧
    cScore3 "Aaa Bbb Ccc Ddd" "Aaa Bbb Ccc Ddd" = 100 ∧
    (processBeer cSearch3 cScore3 beer3).match_manually = true := by
  refine ⟨by decide, by decide, by decide, by decide, by decide⟩

/-- C3 (amended): a best candidate scoring over 40 from the first
variant that yields results is accepted; one scoring 40 or below routes
the Product to manual matching at once; a variant is skipped (the next
one tried) exactly when it yields no results or no candidates; no match
anywhere also routes to manual matching. -/
theorem fuzzy_threshold_behavior :
    (∀ (search : String → Option (List SearchResult)) (score : String → String → ℕ)
        (b : Beer) (r : SearchResult) (s : ℕ),
      findBeerMatch search score b.vmp_name = some (r, s) → s ≤ 40 →
      (processBeer search score b).match_manually = true)
    ∧ (∀ (search : String → Option (List SearchResult)) (score : String → String → ℕ)
        (b : Beer) (r : SearchResult) (s : ℕ) (n : ℤ), b.untpd_id = none →
      findBeerMatch search score b.vmp_name = some (r, s) → 40 < s →
      strToInt r.2.1 = some n →
      (processBeer search score b).untpd_id = some n ∧
        (processBeer search score b).untpd_url = some r.2.2)
    ∧ (∀ (search : String → Option (List SearchResult)) (score : String → String → ℕ)
        (b : Beer),
      findBeerMatch search score b.vmp_name = none →
      (processBeer search score b).match_manually = true)
    ∧ (∀ (search : String → Option (List SearchResult)) (score : String → String → ℕ)
        (nm q : String) (rest : List String),
      (search q = none →
        findFrom search score nm (q :: rest) = findFrom search score nm rest)
      ∧ (search q = some [] →
        findFrom search score nm (q :: rest) = findFrom search score nm rest)
      ∧ (∀ results, search q = some results → results ≠ [] →
        ∃ r s, findFrom search score nm (q :: rest) = some (r, s) ∧ r ∈ results)) := by
  refine ⟨?_, ?_, ?_, ?_⟩
  · intro search score b r s hfind hs
    exact processBeer_low_score search score b r s hfind hs
  · intro search score b r s n hid hfind hs hn
    rw [processBeer_accept search score b r s n hid hfind hs hn]
    exact ⟨rfl, rfl⟩
  · intro search score b hfind
    exact processBeer_no_match search score b hfind
  · intro search score nm q rest
    refine ⟨?_, ?_, ?_⟩
    · intro h
      conv_lhs => rw [findFrom]
      rw [h]
    · intro h
      conv_lhs => rw [findFrom]
      rw [h]
      rfl
    · intro results hq hne
      obtain ⟨c, s, hx, hc⟩ := extractOne_spec score nm (results.map (fun r => r.1))
        (by simpa using hne)
      obtain ⟨r0, hr0, hr0c⟩ := List.mem_map.mp hc
      have hfound : (results.find? (fun r => r.1 = c)).isSome := by
        rw [List.find?_isSome]
        exact ⟨r0, hr0, by simp [hr0c]⟩
      rcases hfind : results.find? (fun r => r.1 = c) with _ | r
      · rw [hfind] at hfound; exact Bool.noConfusion hfound
      · refine ⟨r, s, ?_, List.mem_of_find?_eq_some hfind⟩
        unfold findFrom
        rw [hq]
        dsimp only
        rw [hx]
        dsimp only
        rw [hfind]

/-- Witness for the amended C3 at concrete inputs: the 40-scoring case
routes to manual matching, a 95-scoring candidate is accepted, an
all-failing search routes to manual matching, and the variant loop skips
exactly the resultless variants. -/
theorem fuzzy_threshold_behavior_witness :
    (processBeer cSearch3 cScore3 beer3).match_manually = true
    ∧ ((processBeer cSearch4 cScore4 beer4).untpd_id = some 77 ∧
        (processBeer cSearch4 cScore4 beer4).untpd_url = some "https://untappd.com/b/77")
    ∧ (processBeer (fun _ => none) cScore4 beer4).match_manually = true
    ∧ (findFrom (fun _ => none) cScore4 "Polarpils" ["Polarpils"] =
        findFrom (fun _ => none) cScore4 "Polarpils" [])
    ∧ (findFrom (fun _ => some []) cScore4 "Polarpils" ["Polarpils"] =
        findFrom (fun _ => some []) cScore4 "Polarpils" [])
    ∧ (∃ r s, findFrom cSearch4 cScore4 "Polarpils" ["Polarpils"] = some (r, s) ∧
        r ∈ [("Polarpils", "77", "https://untappd.com/b/77")]) :=
  ⟨fuzzy_threshold_behavior.1 cSearch3 cScore3 beer3 ("Low", "1", "u1") 40
      (by decide) (by decide),
   fuzzy_threshold_behavior.2.1 cSearch4 cScore4 beer4
      ("Polarpils", "77", "https://untappd.com/b/77") 95 77 rfl (by decide) (by decide)
      (by decide),
   fuzzy_threshold_behavior.2.2.1 (fun _ => none) cScore4 beer4 (by decide),
   (fuzzy_threshold_behavior.2.2.2 (fun _ => none) cScore4 "Polarpils" "Polarpils" []).1 rfl,
   (fuzzy_threshold_behavior.2.2.2 (fun _ => some []) cScore4 "Polarpils" "Polarpils" []).2.1 rfl,
   (fuzzy_threshold_behavior.2.2.2 cSearch4 cScore4 "Polarpils" "Polarpils" []).2.2
      [("Polarpils", "77", "https://untappd.com/b/77")] (by decide) (by decide)⟩

/-- C4 (counterexample): a confidently matched beer (score 95) gets the
candidate's id and url — but `verified_match` stays false: the accepting
save dirties two fields, so the url-only branch of `Beer.save` that
would set it never fires. -/
theorem accept_save_leaves_verified_false :
    (processBeer cSearch4 cScore4 beer4).untpd_id = some 77 ∧
    (processBeer cSearch4 cScore4 beer4).untpd_url = some "https://untappd.com/b/77" ∧
    (processBeer cSearch4 cScore4 beer4).match_manually = false ∧
    (processBeer cSearch4 cScore4 beer4).verified_match = false := by
  refine ⟨by decide, by decide, by decide, by decide⟩

/-- C4 (amended): an accepted fuzzy match writes the candidate's id and
url and leaves `match_manually` false — and leaves `verified_match`
unchanged (false for the beers this command sweeps) rather than setting
it to true. -/
theorem accept_match_fields (search : String → Option (List SearchResult))
    (score : String → String → ℕ) (b : Beer) (r : SearchResult) (s : ℕ) (n : ℤ)
    (hid : b.untpd_id = none) (hmm : b.match_manually = false)
    (hfind : findBeerMatch search score b.vmp_name = some (r, s)) (hs : 40 < s)
    (hn : strToInt r.2.1 = some n) :
    (processBeer search score b).untpd_id = some n ∧
    (processBeer search score b).untpd_url = some r.2.2 ∧
    (processBeer search score b).match_manually = false ∧
    (processBeer search score b).verified_match = b.verified_match := by
  rw [processBeer_accept search score b r s n hid hfind hs hn]
  exact ⟨rfl, rfl, hmm, rfl⟩

/-- Witness for the amended C4 at the concrete 95-scoring search. -/
theorem accept_match_fields_witness :
    (processBeer cSearch4 cScore4 beer4).untpd_id = some 77 ∧
    (processBeer cSearch4 cScore4 beer4).untpd_url = some "https://untappd.com/b/77" ∧
    (processBeer cSearch4 cScore4 beer4).match_manually = false ∧
    (processBeer cSearch4 cScore4 beer4).verified_match = beer4.verified_match :=
  accept_match_fields cSearch4 cScore4 beer4 ("Polarpils", "77", "https://untappd.com/b/77")
    95 77 rfl rfl (by decide) (by decide) (by decide)

/-! ## C7: stock transitions during a store pass -/

theorem mem_updateBeerStock_of_ne (now store bp q : ℤ) (r : Stock) (stocks : List Stock)
    (h : r ∈ stocks) (hne : r.beer ≠ bp) : r ∈ updateBeerStock now store bp q stocks := by
  unfold updateBeerStock
  by_cases hany : stocks.any (fun s => decide (s.store = store ∧ s.beer = bp)) = true
  · rw [if_pos hany]
    exact List.mem_map.mpr ⟨r, h, by rw [if_neg (fun hc => hne hc.2)]⟩
  · rw [if_neg hany]
    exact List.mem_append_left _ h

/-- A stock row whose beer is never seen passes through the category
loops untouched. -/
theorem mem_processSeen_of_not_seen (now store : ℤ) (r : Stock) :
    ∀ (seen : List (ℤ × ℤ)) (stocks : List Stock), r ∈ stocks →
      r.beer ∉ seen.map Prod.fst → r ∈ processSeen now store seen stocks := by
  intro seen
  induction seen with
  | nil => intro stocks h _; exact h
  | cons p rest ih =>
    intro stocks h hns
    have h1 : r.beer ≠ p.1 := fun hc =>
      hns (by rw [hc]; exact List.mem_map.mpr ⟨p, List.mem_cons_self _ _, rfl⟩)
    have h2 : r.beer ∉ rest.map Prod.fst := fun hm =>
      hns (by rw [List.map_cons]; exact List.mem_cons_of_mem _ hm)
    exact ih (updateBeerStock now store p.1 p.2 stocks)
      (mem_updateBeerStock_of_ne now store p.1 p.2 r stocks h h1) h2

/-- The 0 → nonzero edge of `_update_beer_stock`. -/
theorem mem_updateBeerStock_hit (now store q : ℤ) (r : Stock) (stocks : List Stock)
    (h : r ∈ stocks) (hst : r.store = store) (hq0 : r.quantity = 0) (hq : q ≠ 0) :
    { r with stocked_at := some now, quantity := q } ∈
      updateBeerStock now store r.beer q stocks := by
  unfold updateBeerStock
  have hany : stocks.any (fun s => decide (s.store = store ∧ s.beer = r.beer)) = true :=
    List.any_eq_true.mpr ⟨r, h, by simp [hst]⟩
  rw [if_pos hany]
  refine List.mem_map.mpr ⟨r, h, ?_⟩
  rw [if_pos (And.intro hst rfl), if_pos (And.intro hq0 hq)]

/-- C7 (counterexample): a pass that saw no product at all leaves a
nonzero, unseen stock row of the store completely untouched — the
`if stocked_beers:` guard skips `_unstock_missing_beers` — while the
claim requires it zeroed with `unstocked_at` set. -/
theorem empty_pass_skips_unstock :
    updateStoreStock 100 1 [] [stock7] = [stock7] ∧
    stock7.quantity = 5 ∧ stock7.unstocked_at = none ∧
    stock7.beer ∉ (([] : List (ℤ × ℤ)).map Prod.fst) := by
  exact ⟨rfl, rfl, rfl, by simp⟩

/-- C7 (amended): during a store stock pass, a row with quantity 0 seen
once with a nonzero quantity gets `stocked_at` set to the pass time with
`unstocked_at` untouched; and — provided the pass saw at least one
product — every nonzero row of the store whose beer was not seen is
zeroed with `unstocked_at` set. -/
theorem store_stock_pass_transitions :
    (∀ (now store q : ℤ) (stocks : List Stock) (r : Stock) (pre post : List (ℤ × ℤ)),
      r ∈ stocks → r.store = store → r.quantity = 0 → q ≠ 0 →
      r.beer ∉ pre.map Prod.fst → r.beer ∉ post.map Prod.fst →
      { r with stocked_at := some now, quantity := q } ∈
          updateStoreStock now store (pre ++ (r.beer, q) :: post) stocks ∧
        ({ r with stocked_at := some now, quantity := q } : Stock).unstocked_at =
          r.unstocked_at)
    ∧ (∀ (now store : ℤ) (stocks : List Stock) (r : Stock) (seen : List (ℤ × ℤ)),
      r ∈ stocks → r.store = store → r.quantity ≠ 0 →
      r.beer ∉ seen.map Prod.fst → seen ≠ [] →
      { r with quantity := 0, unstocked_at := some now } ∈
        updateStoreStock now store seen stocks) := by
  constructor
  · intro now store q stocks r pre post hmem hst hq0 hq hpre hpost
    refine ⟨?_, rfl⟩
    have step1 : r ∈ processSeen now store pre stocks :=
      mem_processSeen_of_not_seen now store r pre stocks hmem hpre
    have step2 : { r with stocked_at := some now, quantity := q } ∈
        updateBeerStock now store r.beer q (processSeen now store pre stocks) :=
      mem_updateBeerStock_hit now store q r _ step1 hst hq0 hq
    have step3 : { r with stocked_at := some now, quantity := q } ∈
        processSeen now store post
          (updateBeerStock now store r.beer q (processSeen now store pre stocks)) :=
      mem_processSeen_of_not_seen now store _ post _ step2 hpost
    have hseq : processSeen now store (pre ++ (r.beer, q) :: post) stocks =
        processSeen now store post
          (updateBeerStock now store r.beer q (processSeen now store pre stocks)) := by
      unfold processSeen
      rw [List.foldl_append]
      rfl
    unfold updateStoreStock
    rw [if_neg (by simp), hseq]
    refine List.mem_map.mpr ⟨_, step3, ?_⟩
    rw [if_neg ?_]
    rintro ⟨-, hnot, -⟩
    exact hnot (by simp)
  · intro now store stocks r seen hmem hst hq hns hne
    have h1 : r ∈ processSeen now store seen stocks :=
      mem_processSeen_of_not_seen now store r seen stocks hmem hns
    unfold updateStoreStock
    rw [if_neg hne]
    exact List.mem_map.mpr ⟨r, h1, by rw [if_pos (And.intro hst (And.intro hns hq))]⟩

/-- Witness for the amended C7 at concrete inputs: the row of beer 7
(store 1, quantity 0) seen with quantity 5 gets stocked; the nonzero row
of beer 9 unseen in a nonempty pass gets unstocked. -/
theorem store_stock_pass_transitions_witness :
    ({ (⟨1, 7, 0, none, none⟩ : Stock) with stocked_at := some (100 : ℤ), quantity := (5 : ℤ) } ∈
        updateStoreStock 100 1 ([] ++ (7, 5) :: []) [⟨1, 7, 0, none, none⟩] ∧
      ({ (⟨1, 7, 0, none, none⟩ : Stock) with stocked_at := some (100 : ℤ), quantity := (5 : ℤ) } : Stock).unstocked_at =
        (⟨1, 7, 0, none, none⟩ : Stock).unstocked_at)
    ∧ { (⟨1, 9, 4, none, none⟩ : Stock) with quantity := (0 : ℤ), unstocked_at := some (100 : ℤ) } ∈
        updateStoreStock 100 1 [(7, 5)] [⟨1, 9, 4, none, none⟩] :=
  ⟨store_stock_pass_transitions.1 100 1 5 [⟨1, 7, 0, none, none⟩] ⟨1, 7, 0, none, none⟩
      [] [] (by decide) rfl rfl (by decide) (by decide) (by decide),
   store_stock_pass_transitions.2 100 1 [⟨1, 9, 4, none, none⟩] ⟨1, 9, 4, none, none⟩
      [(7, 5)] (by decide) rfl (by decide) (by decide) (by decide)⟩

/-! ## C10: upload validation in bulk_mark_tasted -/

/-- C10: an upload with a `.csv`/`.json` name none of whose records
yields a valid numeric beer id is rejected with the structured 400
"No valid beer IDs found in file" and the database is untouched; any
other extension is rejected with the structured 400 format error,
likewise without partial import. -/
theorem import_rejects_bad_uploads :
    (∀ (parseFmt : String → Option ℚ) (user : ℕ) (name : String)
        (csvRows jsonItems : List Row) (jsonIsList : Bool) (db : DB),
      (endsWith (pyLower name) ".csv" = true ∨ endsWith (pyLower name) ".json" = true) →
      (∀ r ∈ csvRows, extractCheckinData parseFmt r = none) →
      (∀ r ∈ jsonItems, extractCheckinData parseFmt r = none) →
      bulkMarkTasted parseFmt user name csvRows jsonItems jsonIsList db =
        (.err 400 "No valid beer IDs found in file", db))
    ∧ (∀ (parseFmt : String → Option ℚ) (user : ℕ) (name : String)
        (csvRows jsonItems : List Row) (jsonIsList : Bool) (db : DB),
      endsWith (pyLower name) ".csv" = false → endsWith (pyLower name) ".json" = false →
      bulkMarkTasted parseFmt user name csvRows jsonItems jsonIsList db =
        (.err 400 "Unsupported file format. Use .csv or .json", db)) := by
  constructor
  · intro parseFmt user name csvRows jsonItems jsonIsList db hext h1 h2
    unfold bulkMarkTasted parseUntappdFile
    by_cases hcsv : endsWith (pyLower name) ".csv" = true
    · rw [if_pos hcsv, List.filterMap_eq_nil_iff.mpr h1]
    · have hjson : endsWith (pyLower name) ".json" = true := hext.resolve_left hcsv
      rw [if_neg hcsv, if_pos hjson]
      cases jsonIsList with
      | true => rw [if_pos rfl, List.filterMap_eq_nil_iff.mpr h2]
      | false => rw [if_neg (by simp)]
  · intro parseFmt user name csvRows jsonItems jsonIsList db hcsv hjson
    unfold bulkMarkTasted parseUntappdFile
    rw [if_neg (by simp [hcsv]), if_neg (by simp [hjson])]

/-- Witness for C10 at concrete uploads: a `.csv` file whose single
record carries no id, and a `.txt` file. -/
theorem import_rejects_bad_uploads_witness :
    bulkMarkTasted parseFmt0 1 "export.csv" [badRow] [] true db0 =
      (.err 400 "No valid beer IDs found in file", db0)
    ∧ bulkMarkTasted parseFmt0 1 "export.txt" [badRow] [] true db0 =
      (.err 400 "Unsupported file format. Use .csv or .json", db0) :=
  ⟨import_rejects_bad_uploads.1 parseFmt0 1 "export.csv" [badRow] [] true db0
      (Or.inl (by decide)) (by decide) (by decide),
   import_rejects_bad_uploads.2 parseFmt0 1 "export.txt" [badRow] [] true db0
      (by decide) (by decide)⟩

/-! ## C2: import idempotence — merge and dictionary lemmas -/

theorem pickHigher_none_left (b : Option ℚ) : pickHigher none b = b := by
  cases b <;> rfl

theorem pickEarlier_none_left (b : Option ℚ) : pickEarlier none b = b := by
  cases b <;> rfl

theorem pickHigher_self (a : Option ℚ) : pickHigher a a = a := by
  cases a <;> simp [pickHigher]

theorem pickEarlier_self (a : Option ℚ) : pickEarlier a a = a := by
  cases a <;> simp [pickEarlier]

theorem pickHigher_right_idem (a b : Option ℚ) :
    pickHigher (pickHigher a b) b = pickHigher a b := by
  cases a <;> cases b <;> simp [pickHigher, max_assoc]

theorem pickEarlier_right_idem (a b : Option ℚ) :
    pickEarlier (pickEarlier a b) b = pickEarlier a b := by
  cases a <;> cases b <;> simp [pickEarlier, min_assoc]

theorem alistSet_keys (l : List (ℤ × Option ℚ × Option ℚ)) (k : ℤ) (v : Option ℚ × Option ℚ) :
    (alistSet l k v).map (fun p => p.1) =
      if l.any (fun p => decide (p.1 = k)) then l.map (fun p => p.1)
      else l.map (fun p => p.1) ++ [k] := by
  unfold alistSet
  by_cases h : l.any (fun p => decide (p.1 = k)) = true
  · rw [if_pos h, if_pos h, List.map_map]
    refine List.map_congr_left ?_
    intro p _
    by_cases hp : p.1 = k
    · simp [hp]
    · simp [hp]
  · rw [if_neg h, if_neg h, List.map_append]
    rfl

theorem alistSet_keys_nodup (l : List (ℤ × Option ℚ × Option ℚ)) (k : ℤ)
    (v : Option ℚ × Option ℚ) (h : (l.map (fun p => p.1)).Nodup) :
    ((alistSet l k v).map (fun p => p.1)).Nodup := by
  rw [alistSet_keys]
  by_cases hany : l.any (fun p => decide (p.1 = k)) = true
  · rw [if_pos hany]; exact h
  · rw [if_neg hany]
    rw [List.nodup_append]
    refine ⟨h, List.nodup_singleton k, ?_⟩
    intro a ha hb
    rw [List.mem_singleton] at hb
    subst hb
    obtain ⟨p, hp, hpk⟩ := List.mem_map.mp ha
    exact hany (List.any_eq_true.mpr ⟨p, hp, by simp [hpk]⟩)

/-- The dictionary built by `_dedup_checkins` has pairwise distinct
keys. -/
theorem dedupCheckins_keys_nodup (cs : List CheckinTuple) :
    ((dedupCheckins cs).map (fun p => p.1)).Nodup := by
  suffices h : ∀ (cs : List CheckinTuple) (acc : List (ℤ × Option ℚ × Option ℚ)),
      (acc.map (fun p => p.1)).Nodup →
      ((cs.foldl (fun best c =>
        let prev := (alistGet best c.1).getD (none, none)
        alistSet best c.1 (pickHigher prev.1 c.2.1, pickEarlier prev.2 c.2.2)) acc).map
          (fun p => p.1)).Nodup by
    exact h cs [] List.nodup_nil
  intro cs
  induction cs with
  | nil => intro acc h; exact h
  | cons c rest ih =>
    intro acc h
    exact ih _ (alistSet_keys_nodup acc c.1 _ h)

/-- With pairwise distinct keys, the dictionary lookup of a member entry
returns its own value. -/
theorem alistGet_of_nodup (l : List (ℤ × Option ℚ × Option ℚ))
    (e : ℤ × Option ℚ × Option ℚ) (hnd : (l.map (fun p => p.1)).Nodup) (he : e ∈ l) :
    alistGet l e.1 = some e.2 := by
  induction l with
  | nil => cases he
  | cons p t ih =>
    rw [List.map_cons, List.nodup_cons] at hnd
    rcases List.mem_cons.mp he with rfl | hmem
    · unfold alistGet
      rw [List.find?_cons_of_pos _ (by simp)]
      rfl
    · have hne : p.1 ≠ e.1 := fun hc =>
        hnd.1 (hc ▸ List.mem_map.mpr ⟨e, hmem, rfl⟩)
      unfold alistGet
      rw [List.find?_cons_of_neg _ (by simpa using hne)]
      exact ih hnd.2 hmem

/-! ## C2: import idempotence — `_save_checkins` lemmas -/

theorem saveCheckins_def (u : ℕ) (d : List (ℤ × Option ℚ × Option ℚ)) (db : DB) :
    saveCheckins u d db =
      { db with
        checkins := db.checkins.map (mergeCheckin u d) ++
          mkCheckinRows u db.nextId (d.filter (fun e => (existingCheckin db u e.1).isNone)),
        nextId := db.nextId +
          (mkCheckinRows u db.nextId
            (d.filter (fun e => (existingCheckin db u e.1).isNone))).length } := rfl

/-- The merge step only rewrites `rating` and `checkin_at`. -/
theorem mergeCheckin_preserves (u : ℕ) (d : List (ℤ × Option ℚ × Option ℚ))
    (c : UntappdCheckin) :
    (mergeCheckin u d c).id = c.id ∧ (mergeCheckin u d c).user = c.user ∧
    (mergeCheckin u d c).untpd_beer_id = c.untpd_beer_id ∧
    (mergeCheckin u d c).synced = c.synced := by
  unfold mergeCheckin
  by_cases h : c.user = u
  · rcases halist : alistGet d c.untpd_beer_id with _ | p
    · simp [h, halist]
    · obtain ⟨r, t⟩ := p
      simp [h, halist]
  · simp [h]

theorem existingCheckin_isSome_iff (db : DB) (u : ℕ) (uid : ℤ) :
    (existingCheckin db u uid).isSome = true ↔
      ∃ c ∈ db.checkins, c.user = u ∧ c.untpd_beer_id = uid := by
  unfold existingCheckin
  rw [List.getLast?_isSome]
  constructor
  · intro h
    by_contra hne
    push_neg at hne
    exact h (List.filter_eq_nil_iff.mpr (fun c hc => by
      simp only [decide_eq_true_eq]
      exact fun hP => (hne c hc hP.1) hP.2))
  · rintro ⟨c, hc, hu, hid⟩ hnil
    exact absurd (by simpa using (List.filter_eq_nil_iff.mp hnil c hc))
      (by simp [hu, hid])

theorem mkCheckinRows_mem_of (u : ℕ) (es : List (ℤ × Option ℚ × Option ℚ)) :
    ∀ (nid : ℕ) (e : ℤ × Option ℚ × Option ℚ), e ∈ es →
      ∃ idv, (⟨idv, u, e.1, e.2.1, e.2.2, false⟩ : UntappdCheckin) ∈ mkCheckinRows u nid es := by
  induction es with
  | nil => intro nid e he; cases he
  | cons a t ih =>
    intro nid e he
    rcases List.mem_cons.mp he with rfl | hm
    · exact ⟨nid, List.mem_cons_self _ _⟩
    · obtain ⟨idv, hm2⟩ := ih (nid + 1) e hm
      exact ⟨idv, List.mem_cons_of_mem _ hm2⟩

theorem mkCheckinRows_shape (u : ℕ) (es : List (ℤ × Option ℚ × Option ℚ)) :
    ∀ (nid : ℕ) (c : UntappdCheckin), c ∈ mkCheckinRows u nid es →
      ∃ e ∈ es, c.user = u ∧ c.untpd_beer_id = e.1 ∧ c.rating = e.2.1 ∧
        c.checkin_at = e.2.2 ∧ c.synced = false := by
  induction es with
  | nil => intro nid c hc; cases hc
  | cons a t ih =>
    intro nid c hc
    rcases List.mem_cons.mp hc with rfl | hm
    · exact ⟨a, List.mem_cons_self _ _, rfl, rfl, rfl, rfl, rfl⟩
    · obtain ⟨e, he, h⟩ := ih (nid + 1) c hm
      exact ⟨e, List.mem_cons_of_mem _ he, h⟩

/-- After `_save_checkins`, every deduped key has a stored row of this
user. -/
theorem saveCheckins_has_row (u : ℕ) (d : List (ℤ × Option ℚ × Option ℚ)) (db : DB)
    (e : ℤ × Option ℚ × Option ℚ) (he : e ∈ d) :
    ∃ c ∈ (saveCheckins u d db).checkins, c.user = u ∧ c.untpd_beer_id = e.1 := by
  rw [saveCheckins_def]
  by_cases hex : (existingCheckin db u e.1).isSome = true
  · obtain ⟨c0, hc0, hc0u, hc0id⟩ := (existingCheckin_isSome_iff db u e.1).mp hex
    refine ⟨mergeCheckin u d c0, List.mem_append_left _ (List.mem_map_of_mem _ hc0), ?_, ?_⟩
    · rw [(mergeCheckin_preserves u d c0).2.1, hc0u]
    · rw [(mergeCheckin_preserves u d c0).2.2.1, hc0id]
  · have hnone : (existingCheckin db u e.1).isNone = true := by
      rw [Option.isNone_iff_eq_none]
      exact Option.not_isSome_iff_eq_none.mp (by simpa using hex)
    obtain ⟨idv, hm⟩ := mkCheckinRows_mem_of u
      (d.filter (fun e => (existingCheckin db u e.1).isNone)) db.nextId e
      (List.mem_filter.mpr ⟨he, hnone⟩)
    exact ⟨⟨idv, u, e.1, e.2.1, e.2.2, false⟩, List.mem_append_right _ hm, rfl, rfl⟩

/-- After `_save_checkins`, every stored row of this user under a
deduped key is a fixed point of the (higher rating, earlier timestamp)
merge against that key's deduped value. -/
theorem saveCheckins_merged (u : ℕ) (d : List (ℤ × Option ℚ × Option ℚ)) (db : DB)
    (hnd : (d.map (fun p => p.1)).Nodup) :
    ∀ c ∈ (saveCheckins u d db).checkins, c.user = u →
      ∀ r t, alistGet d c.untpd_beer_id = some (r, t) →
        pickHigher c.rating r = c.rating ∧ pickEarlier c.checkin_at t = c.checkin_at := by
  intro c hc hcu r t halist
  rw [saveCheckins_def] at hc
  rcases List.mem_append.mp hc with hmap | hcr
  · obtain ⟨c0, hc0, rfl⟩ := List.mem_map.mp hmap
    have hu0 : c0.user = u := by
      rw [← (mergeCheckin_preserves u d c0).2.1]; exact hcu
    rw [(mergeCheckin_preserves u d c0).2.2.1] at halist
    have hform : mergeCheckin u d c0 =
        { c0 with
          rating := pickHigher c0.rating r,
          checkin_at := pickEarlier c0.checkin_at t } := by
      unfold mergeCheckin
      rw [if_pos hu0, halist]
    rw [hform]
    exact ⟨pickHigher_right_idem c0.rating r, pickEarlier_right_idem c0.checkin_at t⟩
  · obtain ⟨e, he, _, hcid, hcrat, hcat, _⟩ := mkCheckinRows_shape u _ db.nextId c hcr
    have hget : alistGet d e.1 = some e.2 :=
      alistGet_of_nodup d e hnd (List.mem_filter.mp he).1
    rw [hcid, hget] at halist
    injection halist with h2
    have hr : e.2.1 = r := congrArg Prod.fst h2
    have ht : e.2.2 = t := congrArg Prod.snd h2
    constructor
    · rw [hcrat, hr]; exact pickHigher_self r
    · rw [hcat, ht]; exact pickEarlier_self t

/-- On a state that already satisfies both invariants, `_save_checkins`
is the identity. -/
theorem saveCheckins_noop (u : ℕ) (d : List (ℤ × Option ℚ × Option ℚ)) (db : DB)
    (h1 : ∀ e ∈ d, ∃ c ∈ db.checkins, c.user = u ∧ c.untpd_beer_id = e.1)
    (h2 : ∀ c ∈ db.checkins, c.user = u →
      ∀ r t, alistGet d c.untpd_beer_id = some (r, t) →
        pickHigher c.rating r = c.rating ∧ pickEarlier c.checkin_at t = c.checkin_at) :
    saveCheckins u d db = db := by
  have hfilter : d.filter (fun e => (existingCheckin db u e.1).isNone) = [] := by
    rw [List.filter_eq_nil_iff]
    intro e he
    have hs : (existingCheckin db u e.1).isSome = true :=
      (existingCheckin_isSome_iff db u e.1).mpr (h1 e he)
    intro hN
    rw [Option.isNone_iff_eq_none] at hN
    rw [hN] at hs
    cases hs
  have hmap : db.checkins.map (mergeCheckin u d) = db.checkins := by
    apply map_eq_self_of
    intro c hc
    unfold mergeCheckin
    by_cases hu : c.user = u
    · rw [if_pos hu]
      rcases halist : alistGet d c.untpd_beer_id with _ | p
      · rfl
      · obtain ⟨r, t⟩ := p
        obtain ⟨hr, ht⟩ := h2 c hc hu r t halist
        show ({ c with
          rating := pickHigher c.rating r,
          checkin_at := pickEarlier c.checkin_at t } : UntappdCheckin) = c
        rw [hr, ht]
    · rw [if_neg hu]
  rw [saveCheckins_def, hfilter]
  show ({ db with
    checkins := db.checkins.map (mergeCheckin u d) ++ [],
    nextId := db.nextId + 0 } : DB) = db
  rw [List.append_nil, hmap, Nat.add_zero]

/-! ## C2: import idempotence — `_sync_matched_checkins` lemmas -/

theorem syncMatched_eq_of_empty (u : ℕ) (d : List (ℤ × Option ℚ × Option ℚ)) (db : DB)
    (h : matchedKeys d db.beers = []) : syncMatchedCheckins u d db = (db, 0) := by
  unfold syncMatchedCheckins
  rw [if_pos h]

theorem syncMatched_eq_of_ne (u : ℕ) (d : List (ℤ × Option ℚ × Option ℚ)) (db : DB)
    (h : matchedKeys d db.beers ≠ []) :
    syncMatchedCheckins u d db =
      ({ db with
        tasted := db.tasted ++ (matchedKeys d db.beers).filterMap (fun uid =>
          if existsTastedFor db u uid then none
          else (beerByUntpd db.beers uid).map (fun b =>
            (⟨u, b.vmp_id, (alistGet d uid).bind (fun p => p.1)⟩ : Tasted))),
        checkins := db.checkins.map (fun c =>
          if c.user = u ∧ c.untpd_beer_id ∈ matchedKeys d db.beers then
            { c with synced := true }
          else c) },
      ((matchedKeys d db.beers).filterMap (fun uid =>
        if existsTastedFor db u uid then none
        else (beerByUntpd db.beers uid).map (fun b =>
          (⟨u, b.vmp_id, (alistGet d uid).bind (fun p => p.1)⟩ : Tasted)))).length) := by
  unfold syncMatchedCheckins
  rw [if_neg h]

theorem beerByUntpd_mem (beers : List Beer) (uid : ℤ) (b : Beer)
    (h : beerByUntpd beers uid = some b) : b ∈ beers ∧ b.untpd_id = some uid := by
  have hm := getLast?_mem h
  have := List.mem_filter.mp hm
  exact ⟨this.1, by simpa using this.2⟩

/-- Primary keys are unique, so the foreign-key join resolves a member
beer to itself. -/
theorem beerByPk_of_pairwise (beers : List Beer)
    (hpk : List.Pairwise (fun a b => a.vmp_id ≠ b.vmp_id) beers) (b : Beer)
    (hb : b ∈ beers) : beerByPk beers b.vmp_id = some b := by
  induction beers with
  | nil => cases hb
  | cons hd tl ih =>
    rw [List.pairwise_cons] at hpk
    rcases List.mem_cons.mp hb with rfl | hm
    · unfold beerByPk
      rw [List.filter_cons_of_pos (by simp)]
      have : tl.filter (fun x => decide (x.vmp_id = b.vmp_id)) = [] := by
        rw [List.filter_eq_nil_iff]
        intro x hx
        simpa using (hpk.1 x hx).symm
      rw [this]
      rfl
    · have hne : hd.vmp_id ≠ b.vmp_id := hpk.1 b hm
      unfold beerByPk
      rw [List.filter_cons_of_neg (by simpa using hne)]
      exact ih hpk.2 hm

/-- The checkin table after `_sync_matched_checkins` is a map of the
previous one that only ever flips `synced`. -/
theorem syncMatched_checkins_map (u : ℕ) (d : List (ℤ × Option ℚ × Option ℚ)) (db : DB) :
    ∃ f, (syncMatchedCheckins u d db).1.checkins = db.checkins.map f ∧
      ∀ c, (f c).id = c.id ∧ (f c).user = c.user ∧
        (f c).untpd_beer_id = c.untpd_beer_id ∧
        (f c).rating = c.rating ∧ (f c).checkin_at = c.checkin_at := by
  by_cases hk : matchedKeys d db.beers = []
  · refine ⟨id, ?_, fun c => ⟨rfl, rfl, rfl, rfl, rfl⟩⟩
    rw [syncMatched_eq_of_empty u d db hk, List.map_id]
  · refine ⟨fun c =>
      if c.user = u ∧ c.untpd_beer_id ∈ matchedKeys d db.beers then
        { c with synced := true }
      else c, ?_, ?_⟩
    · rw [syncMatched_eq_of_ne u d db hk]
    · intro c
      dsimp only
      by_cases hcond : c.user = u ∧ c.untpd_beer_id ∈ matchedKeys d db.beers
      · rw [if_pos hcond]
        exact ⟨rfl, rfl, rfl, rfl, rfl⟩
      · rw [if_neg hcond]
        exact ⟨rfl, rfl, rfl, rfl, rfl⟩

theorem syncMatched_beers (u : ℕ) (d : List (ℤ × Option ℚ × Option ℚ)) (db : DB) :
    (syncMatchedCheckins u d db).1.beers = db.beers := by
  by_cases hk : matchedKeys d db.beers = []
  · rw [syncMatched_eq_of_empty u d db hk]
  · rw [syncMatched_eq_of_ne u d db hk]

/-- After the sync pass, every matched key has a Tasted row for this
user (primary-key uniqueness makes the join well-behaved). -/
theorem syncMatched_establishes_tasted (u : ℕ) (d : List (ℤ × Option ℚ × Option ℚ))
    (db : DB) (hpk : List.Pairwise (fun a b => a.vmp_id ≠ b.vmp_id) db.beers) :
    ∀ uid ∈ matchedKeys d db.beers,
      existsTastedFor (syncMatchedCheckins u d db).1 u uid = true := by
  intro uid huid
  by_cases hk : matchedKeys d db.beers = []
  · rw [hk] at huid; cases huid
  · rw [syncMatched_eq_of_ne u d db hk]
    have hbs : (beerByUntpd db.beers uid).isSome = true :=
      (List.mem_filter.mp huid).2
    obtain ⟨b, hb⟩ := Option.isSome_iff_exists.mp hbs
    obtain ⟨hbm, hbid⟩ := beerByUntpd_mem db.beers uid b hb
    by_cases hex : existsTastedFor db u uid = true
    · unfold existsTastedFor at hex ⊢
      rw [List.any_append, hex, Bool.true_or]
    · have hrow : (⟨u, b.vmp_id, (alistGet d uid).bind (fun p => p.1)⟩ : Tasted) ∈
          (matchedKeys d db.beers).filterMap (fun uid =>
            if existsTastedFor db u uid then none
            else (beerByUntpd db.beers uid).map (fun b =>
              (⟨u, b.vmp_id, (alistGet d uid).bind (fun p => p.1)⟩ : Tasted))) := by
        refine List.mem_filterMap.mpr ⟨uid, huid, ?_⟩
        rw [if_neg hex, hb]
        rfl
      unfold existsTastedFor
      rw [List.any_eq_true]
      refine ⟨_, List.mem_append_right _ hrow, ?_⟩
      rw [beerByPk_of_pairwise db.beers hpk b hbm]
      simp [hbid]

/-- After the sync pass, every checkin row of this user under a matched
key is marked synced. -/
theorem syncMatched_synced (u : ℕ) (d : List (ℤ × Option ℚ × Option ℚ)) (db : DB) :
    ∀ c ∈ (syncMatchedCheckins u d db).1.checkins, c.user = u →
      c.untpd_beer_id ∈ matchedKeys d db.beers → c.synced = true := by
  intro c hc hcu hcid
  by_cases hk : matchedKeys d db.beers = []
  · rw [hk] at hcid; cases hcid
  · rw [syncMatched_eq_of_ne u d db hk] at hc
    obtain ⟨c0, _, rfl⟩ := List.mem_map.mp hc
    by_cases hcond : c0.user = u ∧ c0.untpd_beer_id ∈ matchedKeys d db.beers
    · rw [if_pos hcond]
    · rw [if_neg hcond] at hcu hcid ⊢
      exact absurd ⟨hcu, hcid⟩ hcond

/-- On a state where every matched key already has its Tasted row and
every matched checkin of the user is already synced,
`_sync_matched_checkins` is the identity and imports nothing. -/
theorem syncMatched_noop (u : ℕ) (d : List (ℤ × Option ℚ × Option ℚ)) (db : DB)
    (h1 : ∀ uid ∈ matchedKeys d db.beers, existsTastedFor db u uid = true)
    (h2 : ∀ c ∈ db.checkins, c.user = u →
      c.untpd_beer_id ∈ matchedKeys d db.beers → c.synced = true) :
    syncMatchedCheckins u d db = (db, 0) := by
  by_cases hk : matchedKeys d db.beers = []
  · exact syncMatched_eq_of_empty u d db hk
  · rw [syncMatched_eq_of_ne u d db hk]
    have htc : (matchedKeys d db.beers).filterMap (fun uid =>
        if existsTastedFor db u uid then none
        else (beerByUntpd db.beers uid).map (fun b =>
          (⟨u, b.vmp_id, (alistGet d uid).bind (fun p => p.1)⟩ : Tasted))) = [] := by
      rw [List.filterMap_eq_nil_iff]
      intro uid huid
      rw [if_pos (h1 uid huid)]
    have hck : db.checkins.map (fun c =>
        if c.user = u ∧ c.untpd_beer_id ∈ matchedKeys d db.beers then
          { c with synced := true }
        else c) = db.checkins := by
      apply map_eq_self_of
      intro c hc
      by_cases hcond : c.user = u ∧ c.untpd_beer_id ∈ matchedKeys d db.beers
      · rw [if_pos hcond]
        have hs := h2 c hc hcond.1 hcond.2
        obtain ⟨cid, cu, cuid, cr, cat, cs⟩ := c
        simp only at hs
        rw [← hs]
      · rw [if_neg hcond]
    rw [htc, hck, List.append_nil]
    rfl

/-! ## C2: the idempotence theorem -/

/-- Unfolding `bulk_import_tasted` into its two phases. -/
theorem bulkImport_phases (u : ℕ) (cs : List CheckinTuple) (dbx : DB) :
    bulkImportTasted u cs dbx =
      ((syncMatchedCheckins u (dedupCheckins cs) (saveCheckins u (dedupCheckins cs) dbx)).1,
       (syncMatchedCheckins u (dedupCheckins cs) (saveCheckins u (dedupCheckins cs) dbx)).2,
       cs.length) := rfl

/-- C2: re-importing the identical parsed list is a no-op — the Tasted
set and the UntappdCheckin rows equal those after the first run, the
second run's `imported_count` is 0 and its `total_check_ins` is still
the file size.  (Requires only the database invariant that Beer primary
keys are unique.) -/
theorem checkin_import_idempotent (u : ℕ) (cs : List CheckinTuple) (db : DB)
    (hpk : List.Pairwise (fun a b => a.vmp_id ≠ b.vmp_id) db.beers) :
    (bulkImportTasted u cs (bulkImportTasted u cs db).1).1.tasted =
        (bulkImportTasted u cs db).1.tasted
    ∧ (bulkImportTasted u cs (bulkImportTasted u cs db).1).1.checkins =
        (bulkImportTasted u cs db).1.checkins
    ∧ (bulkImportTasted u cs (bulkImportTasted u cs db).1).2.1 = 0
    ∧ (bulkImportTasted u cs (bulkImportTasted u cs db).1).2.2 = cs.length := by
  have hnd := dedupCheckins_keys_nodup cs
  set d := dedupCheckins cs with hd_def
  set dbS := saveCheckins u d db with hdbS_def
  set db1 := (syncMatchedCheckins u d dbS).1 with hdb1_def
  have hrun1 : (bulkImportTasted u cs db).1 = db1 := by
    rw [bulkImport_phases]
  obtain ⟨f, hfmap, hfpres⟩ := syncMatched_checkins_map u d dbS
  have hbeers1 : db1.beers = db.beers := syncMatched_beers u d dbS
  -- every deduped key still has a row of this user in db1
  have f1 : ∀ e ∈ d, ∃ c ∈ db1.checkins, c.user = u ∧ c.untpd_beer_id = e.1 := by
    intro e he
    obtain ⟨c, hc, hcu, hcid⟩ := saveCheckins_has_row u d db e he
    refine ⟨f c, ?_, ?_, ?_⟩
    · rw [hdb1_def, hfmap]
      exact List.mem_map_of_mem f hc
    · rw [(hfpres c).2.1, hcu]
    · rw [(hfpres c).2.2.1, hcid]
  -- every stored row of this user in db1 is merge-stable
  have f2 : ∀ c ∈ db1.checkins, c.user = u →
      ∀ r t, alistGet d c.untpd_beer_id = some (r, t) →
        pickHigher c.rating r = c.rating ∧ pickEarlier c.checkin_at t = c.checkin_at := by
    intro c hc hcu r t halist
    rw [hdb1_def, hfmap] at hc
    obtain ⟨c0, hc0, rfl⟩ := List.mem_map.mp hc
    have hu0 : c0.user = u := by rw [← (hfpres c0).2.1]; exact hcu
    rw [(hfpres c0).2.2.1] at halist
    obtain ⟨hr, ht⟩ := saveCheckins_merged u d db hnd c0 hc0 hu0 r t halist
    constructor
    · rw [(hfpres c0).2.2.2.1]; exact hr
    · rw [(hfpres c0).2.2.2.2]; exact ht
  -- every matched key already has its Tasted row in db1
  have f4 : ∀ uid ∈ matchedKeys d db1.beers, existsTastedFor db1 u uid = true := by
    intro uid huid
    rw [hbeers1] at huid
    exact syncMatched_establishes_tasted u d dbS hpk uid huid
  -- every matched checkin of this user in db1 is synced
  have f5 : ∀ c ∈ db1.checkins, c.user = u →
      c.untpd_beer_id ∈ matchedKeys d db1.beers → c.synced = true := by
    intro c hc hcu hcid
    rw [hbeers1] at hcid
    refine syncMatched_synced u d dbS c ?_ hcu ?_
    · exact hc
    · exact hcid
  have hsave2 : saveCheckins u d db1 = db1 := saveCheckins_noop u d db1 f1 f2
  have hsync2 : syncMatchedCheckins u d db1 = (db1, 0) := syncMatched_noop u d db1 f4 f5
  rw [hrun1, bulkImport_phases, ← hd_def, hsave2, hsync2]
  exact ⟨rfl, rfl, rfl, rfl⟩

/-- Witness for C2 at a concrete state: one user, a two-checkin file for
one beer (dedup merges them), one matching Beer in the catalog. -/
theorem checkin_import_idempotent_witness :
    (bulkImportTasted 1 [(10, some 4, some 5), (10, some 3, some 2)]
        (bulkImportTasted 1 [(10, some 4, some 5), (10, some 3, some 2)]
          ⟨[{ beer0 with untpd_id := some 10 }], [], [], 0⟩).1).1.tasted =
      (bulkImportTasted 1 [(10, some 4, some 5), (10, some 3, some 2)]
        ⟨[{ beer0 with untpd_id := some 10 }], [], [], 0⟩).1.tasted
    ∧ (bulkImportTasted 1 [(10, some 4, some 5), (10, some 3, some 2)]
        (bulkImportTasted 1 [(10, some 4, some 5), (10, some 3, some 2)]
          ⟨[{ beer0 with untpd_id := some 10 }], [], [], 0⟩).1).1.checkins =
      (bulkImportTasted 1 [(10, some 4, some 5), (10, some 3, some 2)]
        ⟨[{ beer0 with untpd_id := some 10 }], [], [], 0⟩).1.checkins
    ∧ (bulkImportTasted 1 [(10, some 4, some 5), (10, some 3, some 2)]
        (bulkImportTasted 1 [(10, some 4, some 5), (10, some 3, some 2)]
          ⟨[{ beer0 with untpd_id := some 10 }], [], [], 0⟩).1).2.1 = 0
    ∧ (bulkImportTasted 1 [(10, some 4, some 5), (10, some 3, some 2)]
        (bulkImportTasted 1 [(10, some 4, some 5), (10, some 3, some 2)]
          ⟨[{ beer0 with untpd_id := some 10 }], [], [], 0⟩).1).2.2 =
      ([(10, some 4, some 5), (10, some 3, some 2)] : List CheckinTuple).length :=
  checkin_import_idempotent 1 [(10, some 4, some 5), (10, some 3, some 2)]
    ⟨[{ beer0 with untpd_id := some 10 }], [], [], 0⟩ (by simp)

/-! ## C8: the unmatched-checkin resync sweep -/

theorem syncUnmatched_def (db : DB) :
    syncUnmatchedCheckins db =
      (if db.checkins.filter (fun c => c.synced = false) = [] then (db, 0, 0)
       else if (db.checkins.filter (fun c => c.synced = false)).filter
           (fun c => (beerByUntpd db.beers c.untpd_beer_id).isSome) = [] then (db, 0, 0)
       else
         ({ db with
           tasted := db.tasted ++
             (((db.checkins.filter (fun c => c.synced = false)).filter
               (fun c => (beerByUntpd db.beers c.untpd_beer_id).isSome)).foldl
                 (sweepStep db.beers) ⟨tastedPairs db, [], [], []⟩).toCreate,
           checkins := db.checkins.map (fun c =>
             if c.id ∈ (((db.checkins.filter (fun c => c.synced = false)).filter
                 (fun c => (beerByUntpd db.beers c.untpd_beer_id).isSome)).foldl
                   (sweepStep db.beers) ⟨tastedPairs db, [], [], []⟩).ids then
               { c with synced := true }
             else c) },
         (((db.checkins.filter (fun c => c.synced = false)).filter
           (fun c => (beerByUntpd db.beers c.untpd_beer_id).isSome)).foldl
             (sweepStep db.beers) ⟨tastedPairs db, [], [], []⟩).toCreate.length,
         (((db.checkins.filter (fun c => c.synced = false)).filter
           (fun c => (beerByUntpd db.beers c.untpd_beer_id).isSome)).foldl
             (sweepStep db.beers) ⟨tastedPairs db, [], [], []⟩).users.dedup.length)) := rfl

theorem beerByUntpd_none (beers : List Beer) (uid : ℤ)
    (h : ∀ b ∈ beers, b.untpd_id ≠ some uid) : beerByUntpd beers uid = none := by
  unfold beerByUntpd
  rw [List.filter_eq_nil_iff.mpr (fun b hb => by simpa using h b hb)]
  rfl

theorem beerByUntpd_append_single (beers : List Beer) (B : Beer) (X : ℤ)
    (hNoBeer : ∀ b ∈ beers, b.untpd_id ≠ some X) (hB : B.untpd_id = some X) :
    beerByUntpd (beers ++ [B]) X = some B := by
  unfold beerByUntpd
  rw [List.filter_append,
    List.filter_eq_nil_iff.mpr (fun b hb => by simpa using hNoBeer b hb),
    List.nil_append, List.filter_cons_of_pos (by simpa using hB)]
  rfl

theorem beerByPk_append_ne (beers : List Beer) (B : Beer) (pk : ℤ)
    (h : pk ≠ B.vmp_id) : beerByPk (beers ++ [B]) pk = beerByPk beers pk := by
  unfold beerByPk
  rw [List.filter_append, List.filter_cons_of_neg (by simpa using fun hc => h hc.symm)]
  rw [List.filter_nil, List.append_nil]

theorem beerByPk_mem (beers : List Beer) (pk : ℤ) (b : Beer)
    (h : beerByPk beers pk = some b) : b ∈ beers ∧ b.vmp_id = pk := by
  have hm := getLast?_mem h
  have := List.mem_filter.mp hm
  exact ⟨this.1, by simpa using this.2⟩

/-- Every branch of the loop body appends the checkin's id. -/
theorem sweepStep_ids (beers : List Beer) (acc : SweepAcc) (c : UntappdCheckin) :
    (sweepStep beers acc c).ids = acc.ids ++ [c.id] := by
  unfold sweepStep
  by_cases h : (c.user, c.untpd_beer_id) ∈ acc.pairs
  · rw [if_pos h]
  · rw [if_neg h]
    rcases hb : beerByUntpd beers c.untpd_beer_id with _ | b <;> rfl

theorem sweep_ids_grow (beers : List Beer) :
    ∀ (ms : List UntappdCheckin) (acc : SweepAcc) (x : ℕ), x ∈ acc.ids →
      x ∈ (ms.foldl (sweepStep beers) acc).ids := by
  intro ms
  induction ms with
  | nil => intro acc x h; exact h
  | cons a tl ih =>
    intro acc x h
    exact ih (sweepStep beers acc a) x (by rw [sweepStep_ids]; exact List.mem_append_left _ h)

/-- Every processed checkin's id ends up in `checkin_ids_to_mark`. -/
theorem sweep_ids_mem (beers : List Beer) :
    ∀ (ms : List UntappdCheckin) (acc : SweepAcc) (c : UntappdCheckin), c ∈ ms →
      c.id ∈ (ms.foldl (sweepStep beers) acc).ids := by
  intro ms
  induction ms with
  | nil => intro acc c h; cases h
  | cons a tl ih =>
    intro acc c h
    rcases List.mem_cons.mp h with rfl | hm
    · exact sweep_ids_grow beers tl (sweepStep beers acc c) c.id
        (by rw [sweepStep_ids]; exact List.mem_append_right _ (List.mem_singleton.mpr rfl))
    · exact ih (sweepStep beers acc a) c hm

theorem sweepStep_pairs_new (beers : List Beer) (acc : SweepAcc) (c : UntappdCheckin)
    (p : ℕ × ℤ) (hp : p ∈ (sweepStep beers acc c).pairs) :
    p ∈ acc.pairs ∨ p = (c.user, c.untpd_beer_id) := by
  unfold sweepStep at hp
  by_cases h : (c.user, c.untpd_beer_id) ∈ acc.pairs
  · rw [if_pos h] at hp
    exact Or.inl hp
  · rw [if_neg h] at hp
    rcases hb : beerByUntpd beers c.untpd_beer_id with _ | b
    · rw [hb] at hp
      exact Or.inl hp
    · rw [hb] at hp
      rcases List.mem_cons.mp hp with rfl | hm
      · exact Or.inr rfl
      · exact Or.inl hm

/-- The loop only adds (user, beer-id) keys of the rows it visits. -/
theorem sweep_pairs_not_added (beers : List Beer) (u0 : ℕ) (X : ℤ) :
    ∀ (ms : List UntappdCheckin) (acc : SweepAcc), (u0, X) ∉ acc.pairs →
      (∀ c ∈ ms, ¬(c.user = u0 ∧ c.untpd_beer_id = X)) →
      (u0, X) ∉ (ms.foldl (sweepStep beers) acc).pairs := by
  intro ms
  induction ms with
  | nil => intro acc h _; exact h
  | cons a tl ih =>
    intro acc h hrow
    refine ih (sweepStep beers acc a) ?_ (fun c hc => hrow c (List.mem_cons_of_mem _ hc))
    intro hmem
    rcases sweepStep_pairs_new beers acc a (u0, X) hmem with hin | heq
    · exact h hin
    · exact hrow a (List.mem_cons_self _ _)
        ⟨(congrArg Prod.fst heq).symm, (congrArg Prod.snd heq).symm⟩

/-- The loop creates no Tasted row for the pair (u0, pk) as long as no
visited row maps to it. -/
theorem sweep_count_zero (beers : List Beer) (u0 : ℕ) (pk : ℤ) :
    ∀ (ms : List UntappdCheckin) (acc : SweepAcc),
      (∀ c ∈ ms, ∀ b, beerByUntpd beers c.untpd_beer_id = some b →
        ¬(c.user = u0 ∧ b.vmp_id = pk)) →
      ((ms.foldl (sweepStep beers) acc).toCreate.countP
          (fun tr => decide (tr.user = u0 ∧ tr.beer = pk))) =
        acc.toCreate.countP (fun tr => decide (tr.user = u0 ∧ tr.beer = pk)) := by
  intro ms
  induction ms with
  | nil => intro acc _; rfl
  | cons a tl ih =>
    intro acc h
    rw [List.foldl_cons, ih (sweepStep beers acc a) (fun c hc => h c (List.mem_cons_of_mem _ hc))]
    unfold sweepStep
    by_cases hp : (a.user, a.untpd_beer_id) ∈ acc.pairs
    · rw [if_pos hp]
    · rw [if_neg hp]
      rcases hb : beerByUntpd beers a.untpd_beer_id with _ | b
      · rfl
      · dsimp only
        rw [List.countP_append]
        have hnp : ¬(a.user = u0 ∧ b.vmp_id = pk) :=
          h a (List.mem_cons_self _ _) b hb
        simp [hnp]

/-- C8: a RawCheckin ingested while no Product carries its beer id
creates no Tasted row (imported_count 0) and is stored with
`synced = false`; once a Product with that id appears, one resync sweep
creates exactly one Tasted row for the (user, Product) pair and marks
the RawCheckin synced; a further sweep changes nothing.  Hypotheses:
no existing Product carries the id, the user has no stored checkin for
it, the new Product's primary key is fresh and unreferenced. -/
theorem unmatched_checkin_resync (db : DB) (u : ℕ) (X : ℤ) (r t : Option ℚ) (B : Beer)
    (hNoBeer : ∀ b ∈ db.beers, b.untpd_id ≠ some X)
    (hNew : ∀ c ∈ db.checkins, ¬(c.user = u ∧ c.untpd_beer_id = X))
    (hNoDangling : ∀ tr ∈ db.tasted, tr.beer ≠ B.vmp_id)
    (hB : B.untpd_id = some X)
    (hFresh : ∀ b ∈ db.beers, b.vmp_id ≠ B.vmp_id) :
    (bulkImportTasted u [(X, r, t)] db).1.tasted = db.tasted
    ∧ (bulkImportTasted u [(X, r, t)] db).2.1 = 0
    ∧ (⟨db.nextId, u, X, r, t, false⟩ : UntappdCheckin) ∈
        (bulkImportTasted u [(X, r, t)] db).1.checkins
    ∧ ((syncUnmatchedCheckins { (bulkImportTasted u [(X, r, t)] db).1 with
          beers := (bulkImportTasted u [(X, r, t)] db).1.beers ++ [B] }).1.tasted.countP
            (fun tr => decide (tr.user = u ∧ tr.beer = B.vmp_id))) = 1
    ∧ (⟨db.nextId, u, X, r, t, true⟩ : UntappdCheckin) ∈
        (syncUnmatchedCheckins { (bulkImportTasted u [(X, r, t)] db).1 with
          beers := (bulkImportTasted u [(X, r, t)] db).1.beers ++ [B] }).1.checkins
    ∧ syncUnmatchedCheckins (syncUnmatchedCheckins
          { (bulkImportTasted u [(X, r, t)] db).1 with
            beers := (bulkImportTasted u [(X, r, t)] db).1.beers ++ [B] }).1 =
        ((syncUnmatchedCheckins { (bulkImportTasted u [(X, r, t)] db).1 with
          beers := (bulkImportTasted u [(X, r, t)] db).1.beers ++ [B] }).1, 0, 0) := by
  have hded : dedupCheckins [(X, r, t)] = [(X, (r, t))] := by
    show [(X, (pickHigher none r, pickEarlier none t))] = [(X, (r, t))]
    rw [pickHigher_none_left, pickEarlier_none_left]
  have hexist : existingCheckin db u X = none := by
    unfold existingCheckin
    rw [List.filter_eq_nil_iff.mpr (fun c hc => by simpa using hNew c hc)]
    rfl
  -- the ingestion stores exactly one new unsynced row and nothing else
  have hsave : saveCheckins u [(X, (r, t))] db =
      ⟨db.beers, db.checkins ++ [⟨db.nextId, u, X, r, t, false⟩], db.tasted,
        db.nextId + 1⟩ := by
    rw [saveCheckins_def]
    have hflt : ([(X, (r, t))] : List (ℤ × Option ℚ × Option ℚ)).filter
        (fun e => (existingCheckin db u e.1).isNone) = [(X, (r, t))] := by
      rw [List.filter_cons_of_pos (by rw [hexist]; rfl), List.filter_nil]
    rw [hflt]
    have hmrg : db.checkins.map (mergeCheckin u [(X, (r, t))]) = db.checkins := by
      apply map_eq_self_of
      intro c hc
      unfold mergeCheckin
      by_cases hu : c.user = u
      · rw [if_pos hu]
        have hget : alistGet [(X, (r, t))] c.untpd_beer_id = none := by
          unfold alistGet
          rw [List.find?_cons_of_neg _ (by
            simpa using fun hc2 => hNew c hc ⟨hu, hc2.symm⟩), List.find?_nil]
          rfl
        rw [hget]
      · rw [if_neg hu]
    rw [hmrg]
    rfl
  have hnobeer0 : beerByUntpd db.beers X = none := beerByUntpd_none db.beers X hNoBeer
  have hkeys : matchedKeys [(X, (r, t))] db.beers = [] := by
    unfold matchedKeys
    rw [List.map_cons, List.map_nil,
      List.filter_cons_of_neg (by rw [hnobeer0]; simp), List.filter_nil]
  have hing : bulkImportTasted u [(X, r, t)] db =
      (⟨db.beers, db.checkins ++ [⟨db.nextId, u, X, r, t, false⟩], db.tasted,
        db.nextId + 1⟩, 0, 1) := by
    rw [bulkImport_phases, hded, hsave,
      syncMatched_eq_of_empty u [(X, (r, t))]
        ⟨db.beers, db.checkins ++ [(⟨db.nextId, u, X, r, t, false⟩ : UntappdCheckin)],
          db.tasted, db.nextId + 1⟩ hkeys]
    rfl
  rw [hing]
  dsimp only
  refine ⟨rfl, rfl, List.mem_append_right _ (List.mem_singleton.mpr rfl), ?_⟩
  -- names for the post-ingestion state with the new Product
  have hbBA : beerByUntpd (db.beers ++ [B]) X = some B :=
    beerByUntpd_append_single db.beers B X hNoBeer hB
  set c0 : UntappdCheckin := ⟨db.nextId, u, X, r, t, false⟩ with hc0def
  set db2 : DB := ⟨db.beers ++ [B], db.checkins ++ [c0], db.tasted, db.nextId + 1⟩
    with hdb2def
  -- the unsynced and matchable lists of the sweep
  have hfil1 : db2.checkins.filter (fun c => c.synced = false) =
      db.checkins.filter (fun c => c.synced = false) ++ [c0] := by
    rw [hdb2def]
    dsimp only
    rw [List.filter_append, List.filter_cons_of_pos (by rfl), List.filter_nil]
  have hfil2 : (db.checkins.filter (fun c => c.synced = false) ++ [c0]).filter
        (fun c => (beerByUntpd db2.beers c.untpd_beer_id).isSome) =
      ((db.checkins.filter (fun c => c.synced = false)).filter
        (fun c => (beerByUntpd db2.beers c.untpd_beer_id).isSome)) ++ [c0] := by
    rw [List.filter_append, List.filter_cons_of_pos (by
      show (beerByUntpd db2.beers X).isSome = true
      rw [show db2.beers = db.beers ++ [B] from rfl, hbBA]
      rfl), List.filter_nil]
  set pre : List UntappdCheckin :=
    (db.checkins.filter (fun c => c.synced = false)).filter
      (fun c => (beerByUntpd db2.beers c.untpd_beer_id).isSome) with hpredef
  set acc0 : SweepAcc := ⟨tastedPairs db2, [], [], []⟩ with hacc0def
  set preAcc : SweepAcc := pre.foldl (sweepStep db2.beers) acc0 with hpreAccdef
  have hguard1 : db2.checkins.filter (fun c => c.synced = false) ≠ [] := by
    rw [hfil1]; simp
  have hguard2 : (db2.checkins.filter (fun c => c.synced = false)).filter
      (fun c => (beerByUntpd db2.beers c.untpd_beer_id).isSome) ≠ [] := by
    rw [hfil1, hfil2]; simp
  -- the sweep never saw the pair (u, X) before
  have hpairs0 : (u, X) ∉ tastedPairs db2 := by
    intro hmem
    unfold tastedPairs at hmem
    obtain ⟨tr, htr, heq⟩ := List.mem_filterMap.mp hmem
    rcases hbp : beerByPk db2.beers tr.beer with _ | b
    · rw [hbp] at heq; simp at heq
    · rw [hbp] at heq
      simp only [Option.some_bind] at heq
      rcases hbu : b.untpd_id with _ | uid
      · rw [hbu] at heq; simp at heq
      · rw [hbu] at heq
        simp only [Option.map_some', Option.some.injEq, Prod.mk.injEq] at heq
        by_cases hdang : tr.beer = B.vmp_id
        · exact hNoDangling tr htr hdang
        · rw [show db2.beers = db.beers ++ [B] from rfl,
            beerByPk_append_ne db.beers B tr.beer hdang] at hbp
          obtain ⟨hbm, -⟩ := beerByPk_mem db.beers tr.beer b hbp
          exact hNoBeer b hbm (by rw [hbu, heq.2])
  have hprerows : ∀ c ∈ pre, ¬(c.user = u ∧ c.untpd_beer_id = X) := by
    intro c hc
    exact hNew c (List.mem_filter.mp ((List.mem_filter.mp hc).1)).1
  have hKeyNot : (u, X) ∉ preAcc.pairs :=
    sweep_pairs_not_added db2.beers u X pre acc0 hpairs0 hprerows
  -- no row of `pre` can create the pair's Tasted row
  have hcount_pre : preAcc.toCreate.countP
      (fun tr => decide (tr.user = u ∧ tr.beer = B.vmp_id)) = 0 := by
    refine (sweep_count_zero db2.beers u B.vmp_id pre acc0 ?_).trans rfl
    intro c hc b' hb' hand
    obtain ⟨hbm', hbid'⟩ := beerByUntpd_mem db2.beers c.untpd_beer_id b' hb'
    rcases List.mem_append.mp hbm' with hold | hBm
    · exact hFresh b' hold hand.2
    · have hEq : b' = B := List.mem_singleton.mp hBm
      subst hEq
      rw [hB] at hbid'
      have hXc : X = c.untpd_beer_id := by injection hbid'
      exact hNew c (List.mem_filter.mp ((List.mem_filter.mp hc).1)).1 ⟨hand.1, hXc.symm⟩
  -- the final loop iteration creates the Tasted row and marks the id
  have hstep : sweepStep db2.beers preAcc c0 =
      ⟨(u, X) :: preAcc.pairs, preAcc.toCreate ++ [⟨u, B.vmp_id, r⟩],
        preAcc.users ++ [u], preAcc.ids ++ [c0.id]⟩ := by
    unfold sweepStep
    rw [if_neg (show (c0.user, c0.untpd_beer_id) ∉ preAcc.pairs from hKeyNot),
      show beerByUntpd db2.beers c0.untpd_beer_id = some B from hbBA]
  have hfoldAll : (pre ++ [c0]).foldl (sweepStep db2.beers) acc0 =
      sweepStep db2.beers preAcc c0 := by
    rw [List.foldl_append]
    rfl
  have hswp : syncUnmatchedCheckins db2 =
      ({ db2 with
        tasted := db2.tasted ++ (sweepStep db2.beers preAcc c0).toCreate,
        checkins := db2.checkins.map (fun c =>
          if c.id ∈ (sweepStep db2.beers preAcc c0).ids then { c with synced := true }
          else c) },
      (sweepStep db2.beers preAcc c0).toCreate.length,
      (sweepStep db2.beers preAcc c0).users.dedup.length) := by
    rw [syncUnmatched_def db2, if_neg hguard1, if_neg hguard2, hfil1, hfil2, hfoldAll]
  have htasted0 : db.tasted.countP
      (fun tr => decide (tr.user = u ∧ tr.beer = B.vmp_id)) = 0 := by
    rw [List.countP_eq_zero]
    intro tr htr
    simp only [decide_eq_true_eq]
    exact fun hand => hNoDangling tr htr hand.2
  refine ⟨?_, ?_, ?_⟩
  · -- exactly one Tasted row for the pair
    rw [hswp]
    show (db2.tasted ++ (sweepStep db2.beers preAcc c0).toCreate).countP _ = 1
    rw [hstep, List.countP_append, List.countP_append]
    show db.tasted.countP _ + (preAcc.toCreate.countP _ + _) = 1
    rw [htasted0, hcount_pre]
    simp
  · -- the checkin row is now synced
    rw [hswp]
    show _ ∈ db2.checkins.map _
    refine List.mem_map.mpr ⟨c0, List.mem_append_right _ (List.mem_singleton.mpr rfl), ?_⟩
    rw [if_pos (by rw [hstep]; exact List.mem_append_right _ (List.mem_singleton.mpr rfl))]
  · -- a second sweep finds nothing matchable and changes nothing
    have hnosync3 : ∀ c' ∈ (syncUnmatchedCheckins db2).1.checkins, c'.synced = false →
        (beerByUntpd db2.beers c'.untpd_beer_id).isSome = false := by
      rw [hswp]
      intro c' hc' hsy
      obtain ⟨c, hcmem, rfl⟩ := List.mem_map.mp hc'
      by_cases hid : c.id ∈ (sweepStep db2.beers preAcc c0).ids
      · rw [if_pos hid] at hsy
        simp at hsy
      · rw [if_neg hid] at hsy ⊢
        by_contra hcon
        have hisSome : (beerByUntpd db2.beers c.untpd_beer_id).isSome = true := by
          revert hcon
          cases (beerByUntpd db2.beers c.untpd_beer_id).isSome <;> simp
        have hcm : c ∈ (db.checkins.filter (fun c => c.synced = false) ++ [c0]).filter
            (fun c => (beerByUntpd db2.beers c.untpd_beer_id).isSome) := by
          refine List.mem_filter.mpr ⟨?_, hisSome⟩
          rw [← hfil1]
          exact List.mem_filter.mpr ⟨hcmem, by simpa using hsy⟩
        rw [hfil2] at hcm
        exact hid (by
          rw [← hfoldAll]
          exact sweep_ids_mem db2.beers (pre ++ [c0]) acc0 c hcm)
    have hbeq : (syncUnmatchedCheckins db2).1.beers = db2.beers := by rw [hswp]
    rw [syncUnmatched_def ((syncUnmatchedCheckins db2).1)]
    by_cases h3 : (syncUnmatchedCheckins db2).1.checkins.filter
        (fun c => c.synced = false) = []
    · rw [if_pos h3]
    · rw [if_neg h3, if_pos (List.filter_eq_nil_iff.mpr (fun c' hc' => by
        obtain ⟨hcmem, hsy⟩ := List.mem_filter.mp hc'
        have hnone := hnosync3 c' hcmem (by simpa using hsy)
        rw [hbeq, hnone]
        simp))]

/-- Witness for C8 at a concrete state: an empty database, one checkin
for beer id 10, then a Product (vmp_id 2) carrying that id appears. -/
theorem unmatched_checkin_resync_witness :
    (bulkImportTasted 1 [(10, some 4, some 5)] db0).1.tasted = db0.tasted
    ∧ (bulkImportTasted 1 [(10, some 4, some 5)] db0).2.1 = 0
    ∧ (⟨db0.nextId, 1, 10, some 4, some 5, false⟩ : UntappdCheckin) ∈
        (bulkImportTasted 1 [(10, some 4, some 5)] db0).1.checkins
    ∧ ((syncUnmatchedCheckins { (bulkImportTasted 1 [(10, some 4, some 5)] db0).1 with
          beers := (bulkImportTasted 1 [(10, some 4, some 5)] db0).1.beers ++
            [{ beer0 with vmp_id := 2, untpd_id := some 10 }] }).1.tasted.countP
            (fun tr => decide (tr.user = 1 ∧
              tr.beer = ({ beer0 with vmp_id := 2, untpd_id := some 10 } : Beer).vmp_id))) = 1
    ∧ (⟨db0.nextId, 1, 10, some 4, some 5, true⟩ : UntappdCheckin) ∈
        (syncUnmatchedCheckins { (bulkImportTasted 1 [(10, some 4, some 5)] db0).1 with
          beers := (bulkImportTasted 1 [(10, some 4, some 5)] db0).1.beers ++
            [{ beer0 with vmp_id := 2, untpd_id := some 10 }] }).1.checkins
    ∧ syncUnmatchedCheckins (syncUnmatchedCheckins
          { (bulkImportTasted 1 [(10, some 4, some 5)] db0).1 with
            beers := (bulkImportTasted 1 [(10, some 4, some 5)] db0).1.beers ++
              [{ beer0 with vmp_id := 2, untpd_id := some 10 }] }).1 =
        ((syncUnmatchedCheckins { (bulkImportTasted 1 [(10, some 4, some 5)] db0).1 with
          beers := (bulkImportTasted 1 [(10, some 4, some 5)] db0).1.beers ++
            [{ beer0 with vmp_id := 2, untpd_id := some 10 }] }).1, 0, 0) :=
  unmatched_checkin_resync db0 1 10 (some 4) (some 5)
    { beer0 with vmp_id := 2, untpd_id := some 10 }
    (by simp [db0]) (by simp [db0]) (by simp [db0]) rfl (by simp [db0])

end Olmonopolet
